import Mathlib

/-!
Verification development for the material-similarity-matcher retrieval and
scoring engine.  The TypeScript sources are shallowly embedded here:

* JavaScript numbers are modelled as exact rationals; the points where the
  program itself manufactures non-finite values (the `±Infinity` bounds in the
  time-overlap code, and the `NaN` that `Infinity / Infinity` produces) are
  modelled explicitly by the inductive type `JTime` (a rational extended with
  two infinities) and by `JNum := Option JTime` where `none` stands for NaN.
* Date strings are abstracted to rational timestamps: `new Date(s).getTime()`
  of a valid ISO string is the rational, and an absent/undefined string is
  `Option.none`.  Non-empty ISO strings are truthy, so JavaScript truthiness
  of a bound is `Option.isSome`.
* Fallible values (`undefined` in the source) are `Option`.
* The vector indices and the embedding service are external collaborators;
  their responses enter the model as explicit lists of `VecMatch` inputs, and
  the Haversine great-circle kernel (transcendental, hence not representable
  as a rational function) enters as an explicit `dist` parameter; the guards
  around it are embedded faithfully.
-/

namespace MSM

/-- Extended time line used by the overlap code: a rational together with the
`-Infinity` and `Infinity` that the source substitutes for missing bounds. -/
inductive JTime where
  | ninf : JTime
  | fin (q : ℚ) : JTime
  | pinf : JTime
deriving DecidableEq

/-- A JavaScript number that can also be NaN: `none` is NaN, `some t` is a
member of the extended real line `JTime`. -/
abbrev JNum := Option JTime

/-- Embed a rational as a (finite, non-NaN) JavaScript number. -/
def finJ (q : ℚ) : JNum := some (JTime.fin q)

/-- JavaScript strict `<` on the extended line (no NaN on either side). -/
def JTime.ltB : JTime → JTime → Bool
  | .ninf, .ninf => false
  | .ninf, _ => true
  | .fin a, .fin b => decide (a < b)
  | .fin _, .pinf => true
  | .fin _, .ninf => false
  | .pinf, _ => false

/-- JavaScript `<=` on the extended line. -/
def JTime.leB : JTime → JTime → Bool
  | .ninf, _ => true
  | .fin a, .fin b => decide (a ≤ b)
  | .fin _, .pinf => true
  | .fin _, .ninf => false
  | .pinf, .pinf => true
  | .pinf, _ => false

/-- `Math.max` on the extended line. -/
def JTime.maxJ (a b : JTime) : JTime := if JTime.ltB a b then b else a

/-- `Math.min` on the extended line. -/
def JTime.minJ (a b : JTime) : JTime := if JTime.ltB a b then a else b

/-- JavaScript subtraction on the extended line; `Infinity - Infinity` and
`-Infinity - -Infinity` are NaN. -/
def JTime.subJ : JTime → JTime → JNum
  | .pinf, .pinf => none
  | .pinf, _ => some JTime.pinf
  | .ninf, .ninf => none
  | .ninf, _ => some JTime.ninf
  | .fin a, .fin b => some (JTime.fin (a - b))
  | .fin _, .pinf => some JTime.ninf
  | .fin _, .ninf => some JTime.pinf

/-- JavaScript `<` on numbers; any comparison with NaN is false. -/
def jltB : JNum → JNum → Bool
  | some a, some b => JTime.ltB a b
  | _, _ => false

/-- JavaScript `<=` on numbers; any comparison with NaN is false. -/
def jleB : JNum → JNum → Bool
  | some a, some b => JTime.leB a b
  | _, _ => false

/-- JavaScript subtraction on numbers; NaN propagates. -/
def jsubJ : JNum → JNum → JNum
  | some a, some b => JTime.subJ a b
  | _, _ => none

/-- JavaScript addition on numbers; NaN propagates and
`Infinity + -Infinity` is NaN. -/
def jaddJ : JNum → JNum → JNum
  | some (JTime.fin a), some (JTime.fin b) => finJ (a + b)
  | some JTime.pinf, some (JTime.fin _) => some JTime.pinf
  | some (JTime.fin _), some JTime.pinf => some JTime.pinf
  | some JTime.pinf, some JTime.pinf => some JTime.pinf
  | some JTime.ninf, some (JTime.fin _) => some JTime.ninf
  | some (JTime.fin _), some JTime.ninf => some JTime.ninf
  | some JTime.ninf, some JTime.ninf => some JTime.ninf
  | _, _ => none

/-- Multiplication of a JavaScript number by a finite rational weight;
`Infinity * 0` is NaN. -/
def jmulW : JNum → ℚ → JNum
  | some (JTime.fin a), w => finJ (a * w)
  | some JTime.pinf, w =>
      if w = 0 then none else if 0 < w then some JTime.pinf else some JTime.ninf
  | some JTime.ninf, w =>
      if w = 0 then none else if 0 < w then some JTime.ninf else some JTime.pinf
  | none, _ => none

/-- Division of a JavaScript number by a finite rational; a zero divisor is
the JavaScript `+0`, so `x / 0` is a signed infinity (NaN when `x = 0`). -/
def jdivW : JNum → ℚ → JNum
  | some (JTime.fin a), t =>
      if t = 0 then
        if a = 0 then none
        else if 0 < a then some JTime.pinf else some JTime.ninf
      else finJ (a / t)
  | some JTime.pinf, t => if t < 0 then some JTime.ninf else some JTime.pinf
  | some JTime.ninf, t => if t < 0 then some JTime.pinf else some JTime.ninf
  | none, _ => none

/-- Full JavaScript division on numbers. -/
def jdivJ : JNum → JNum → JNum
  | some (JTime.fin a), some (JTime.fin b) =>
      if b = 0 then
        if a = 0 then none
        else if 0 < a then some JTime.pinf else some JTime.ninf
      else finJ (a / b)
  | some (JTime.fin _), some JTime.pinf => finJ 0
  | some (JTime.fin _), some JTime.ninf => finJ 0
  | some JTime.pinf, some (JTime.fin b) =>
      if b < 0 then some JTime.ninf else some JTime.pinf
  | some JTime.ninf, some (JTime.fin b) =>
      if b < 0 then some JTime.pinf else some JTime.ninf
  | some JTime.pinf, some _ => none
  | some JTime.ninf, some _ => none
  | _, _ => none

/-- `Math.min` on two JavaScript numbers: NaN if either side is NaN. -/
def jminJ : JNum → JNum → JNum
  | some a, some b => some (JTime.minJ a b)
  | _, _ => none

/-- True exactly for a finite value inside the real unit interval; NaN and
the infinities are not in the interval. -/
def jInUnitB : JNum → Bool
  | some (JTime.fin q) => decide (0 ≤ q ∧ q ≤ 1)
  | _ => false

/-- True exactly for finite (non-NaN, non-infinite) values. -/
def isFinB : JNum → Bool
  | some (JTime.fin _) => true
  | _ => false

/-! ### Data model (util/types.ts, reduced to the fields the scoring reads) -/

/-- Physical size; each dimension optional (source: `sizeSchema`). -/
structure Size where
  width : Option ℚ
  height : Option ℚ
  depth : Option ℚ
deriving DecidableEq

/-- Geographic coordinate. -/
structure Location where
  latitude : ℚ
  longitude : ℚ
deriving DecidableEq

/-- Availability range; `tfrom`/`tto` model the `from`/`to` ISO strings as
optional rational timestamps (`from` is a reserved word in Lean). -/
structure AvailableTime where
  tfrom : Option ℚ
  tto : Option ℚ
deriving DecidableEq

/-- Query-side material (`MaterialWithoutId`), reduced to the fields the
retrieval engine reads; `quantity` and the classification code never reach
the scoring code and are omitted. -/
structure MaterialWithoutId where
  name : Option String
  description : Option String
  price : Option ℚ
  quality : Option ℚ
  size : Option Size
  location : Option Location
  availableTime : Option AvailableTime
deriving DecidableEq

/-- Metadata projection stored on the name-index vectors. -/
structure MetaData where
  quality : ℚ
  price : ℚ
  location : Option Location
  size : Option Size
  availableTime : Option AvailableTime
deriving DecidableEq

/-- Per-field weight vector. -/
structure Weights where
  w_name : ℚ
  w_desc : ℚ
  w_price : ℚ
  w_quality : ℚ
  w_location : ℚ
  w_availability : ℚ
  w_size : ℚ
deriving DecidableEq

/-- Per-field score breakdown carried by every candidate.  All entries are
JavaScript numbers; only the availability entry can in fact be NaN. -/
structure ScoreBreakdown where
  name : JNum
  description : JNum
  price : JNum
  quality : JNum
  location : JNum
  availability : JNum
  size : JNum
deriving DecidableEq

/-- Hard/soft tag for one constrainable field. -/
inductive ConstraintType where
  | hard : ConstraintType
  | soft : ConstraintType
deriving DecidableEq

/-- Caller-declared per-field constraints; an absent field defaults to soft. -/
structure SearchConstraints where
  name : Option ConstraintType
  description : Option ConstraintType
  price : Option ConstraintType
  condition : Option ConstraintType
  dimensions : Option ConstraintType
  location : Option ConstraintType
  availability : Option ConstraintType
deriving DecidableEq

/-- Geographic hard-filter request: a center plus an optional radius. -/
structure LocationSearch where
  latitude : ℚ
  longitude : ℚ
  radiusKm : Option ℚ
deriving DecidableEq

/-! ### Monotonic scorers (util/retrievalScores.ts) -/

/-- JavaScript truthiness of an optional number (`undefined` and `0` are
falsy). -/
def jsTruthyNum : Option ℚ → Bool
  | none => false
  | some q => decide (q ≠ 0)

/-- One step of the `forEach` accumulation inside `combinedScore`: skip
undefined scores, otherwise add the weight and the weighted score. -/
def combineStep (acc : ℚ × JNum) (sw : Option JNum × ℚ) : ℚ × JNum :=
  match sw.1 with
  | some s => (acc.1 + sw.2, jaddJ acc.2 (jmulW s sw.2))
  | none => acc

/-- Weighted combine (`combinedScore`): fold the (score, weight) pairs,
skipping undefined scores; return 0 on zero total weight, the raw weighted
sum when the weight total is within `1e-4` of `1.0`, and the weighted mean
otherwise. -/
def combinedScore (scores : List (Option JNum × ℚ)) : JNum :=
  if scores.length = 0 then finJ 0
  else
    let acc := scores.foldl combineStep (0, finJ 0)
    if acc.1 = 0 then finJ 0
    else if |acc.1 - 1| < 1 / 10000 then acc.2
    else jdivW acc.2 acc.1

/-- Scorer `closerIsBetterScore`: `1 / (1 + |expected - match| / expected)`,
with the source special cases for a zero expectation.  The result can be
the JavaScript `Infinity` when `1 + r` is zero (a negative expectation). -/
def closerIsBetterScore (expected mtch : Option ℚ) : Option JNum :=
  match expected, mtch with
  | some e, some m =>
      if e = 0 ∧ m = 0 then some (finJ 1)
      else if e = 0 then some (finJ (1 / (1 + |m|)))
      else
        let r := |e - m| / e
        if 1 + r = 0 then some (some JTime.pinf) else some (finJ (1 / (1 + r)))
  | _, _ => none

/-- Scorer `lowerIsBetterScore`: 1 when the match is at most the expectation,
smoothly decaying when the match exceeds it. -/
def lowerIsBetterScore (expected mtch : Option ℚ) : Option ℚ :=
  match expected, mtch with
  | some e, some m =>
      if m ≤ 0 then some 1
      else if e ≤ 0 then some (1 / (1 + m))
      else some (1 / (1 + max 0 ((m - e) / e)))
  | _, _ => none

/-- Scorer `sizeScore`: the unweighted combine of the per-dimension
closer-is-better scores over the dimensions both sides define. -/
def sizeScore (expected mtch : Option Size) : Option JNum :=
  match expected, mtch with
  | some e, some m =>
      let widthScore := closerIsBetterScore e.width m.width
      let heightScore := closerIsBetterScore e.height m.height
      let depthScore := closerIsBetterScore e.depth m.depth
      let scores := [(widthScore, (1 : ℚ)), (heightScore, 1), (depthScore, 1)].filter
        (fun s => s.1.isSome)
      if scores.length = 0 then none else some (combinedScore scores)
  | _, _ => none

/-- Guarded Haversine distance (`distanceInMeters`): undefined when either
location is missing or has a falsy (zero) coordinate; otherwise the value of
the transcendental kernel `dist`, taken here as a parameter. -/
def distanceInMeters (dist : Location → Location → ℚ)
    (expected mtch : Option Location) : Option ℚ :=
  match expected, mtch with
  | some e, some m =>
      if e.latitude = 0 ∨ e.longitude = 0 ∨ m.latitude = 0 ∨ m.longitude = 0 then none
      else some (dist e m)
  | _, _ => none

/-- Radius filter (`isWithinRadius`): passes when the center, point or radius
is missing (or the radius is the falsy `0`), or the distance is undefined. -/
def isWithinRadius (dist : Location → Location → ℚ)
    (center point : Option Location) (radiusKm : Option ℚ) : Bool :=
  if center.isNone ∨ point.isNone ∨ ¬ jsTruthyNum radiusKm then true
  else
    match distanceInMeters dist center point with
    | none => true
    | some d => decide (d ≤ (radiusKm.getD 0) * 1000)

/-- Decayed geographic score (`distance`): `1 / (1 + d / 10000)`. -/
def distance (dist : Location → Location → ℚ)
    (expected mtch : Option Location) : Option ℚ :=
  match distanceInMeters dist expected mtch with
  | none => none
  | some d => some (1 / (1 + d / 10000))

/-- Promote an optional start bound to the extended line (`-Infinity` when
missing). -/
def startOf (o : Option ℚ) : JTime :=
  match o with
  | some q => JTime.fin q
  | none => JTime.ninf

/-- Promote an optional end bound to the extended line (`Infinity` when
missing). -/
def endOf (o : Option ℚ) : JTime :=
  match o with
  | some q => JTime.fin q
  | none => JTime.pinf

/-- Overlap filter (`timeRangesOverlap`): true when either side carries no
bound at all, or the extended intervals intersect (non-strictly). -/
def timeRangesOverlap (searchFrom searchTo materialFrom materialTo : Option ℚ) : Bool :=
  if searchFrom.isNone ∧ searchTo.isNone then true
  else if materialFrom.isNone ∧ materialTo.isNone then true
  else
    let searchStart := startOf searchFrom
    let searchEnd := endOf searchTo
    let materialStart := startOf materialFrom
    let materialEnd := endOf materialTo
    ¬ (JTime.ltB searchEnd materialStart ∨ JTime.ltB materialEnd searchStart)

/-- Availability scorer (`availabilityScore`), embedded with the exact
extended-line arithmetic of the source; the outer `none` is `undefined`, and
the inner `none` is the NaN produced by `Infinity / Infinity`. -/
def availabilityScore (expected mtch : Option AvailableTime) : Option JNum :=
  match expected, mtch with
  | some e, some m =>
      if e.tfrom.isNone ∧ e.tto.isNone then none
      else if m.tfrom.isNone ∧ m.tto.isNone then none
      else
        let searchStart := startOf e.tfrom
        let searchEnd := endOf e.tto
        let materialStart := startOf m.tfrom
        let materialEnd := endOf m.tto
        if JTime.ltB searchEnd materialStart ∨ JTime.ltB materialEnd searchStart then
          some (finJ 0)
        else
          let overlapStart := JTime.maxJ searchStart materialStart
          let overlapEnd := JTime.minJ searchEnd materialEnd
          let overlapDuration := JTime.subJ overlapEnd overlapStart
          let searchDuration :=
            if searchEnd = JTime.pinf ∨ searchStart = JTime.ninf then overlapDuration
            else JTime.subJ searchEnd searchStart
          if jleB searchDuration (finJ 0) then some (finJ 1)
          else some (jminJ (finJ 1) (jdivJ overlapDuration searchDuration))
  | _, _ => none

/-! ### Field presence and adaptive weights (vectorStore.ts) -/

/-- Output of `isFieldProvided`. -/
structure ProvidedFields where
  hasName : Bool
  hasDescription : Bool
  hasPrice : Bool
  hasQuality : Bool
  hasLocation : Bool
  hasAvailability : Bool
  hasSize : Bool
deriving DecidableEq

/-- JavaScript truthiness of an optional string (`undefined` and the empty
string are falsy). -/
def jsTruthyStr : Option String → Bool
  | none => false
  | some s => decide (s ≠ "")

/-- JavaScript `s.trim().length > 0`: true exactly when the string holds a
character that is not whitespace (trimming removes leading and trailing
whitespace, so the trimmed length is positive iff such a character exists). -/
def trimmedNonempty (s : String) : Bool :=
  s.data.any (fun c => !c.isWhitespace)

/-- Field presence detector (`isFieldProvided`): a field counts as provided
only if it carries meaningful data. -/
def isFieldProvided (material : MaterialWithoutId) : ProvidedFields :=
  { hasName := jsTruthyStr material.name &&
      trimmedNonempty (material.name.getD "")
    hasDescription := jsTruthyStr material.description &&
      trimmedNonempty (material.description.getD "")
    hasPrice :=
      match material.price with
      | some p => decide (0 < p)
      | none => false
    hasQuality :=
      match material.quality with
      | some q => decide (1 / 2 ≤ q)
      | none => false
    hasLocation :=
      match material.location with
      | some loc =>
          (decide (loc.latitude ≠ 0) || decide (loc.longitude ≠ 0)) &&
          decide (1 / 10000 < |loc.latitude|) && decide (1 / 10000 < |loc.longitude|)
      | none => false
    hasAvailability :=
      match material.availableTime with
      | some avt => avt.tfrom.isSome || avt.tto.isSome
      | none => false
    hasSize :=
      match material.size with
      | some s => jsTruthyNum s.width || jsTruthyNum s.height || jsTruthyNum s.depth
      | none => false }

/-- Default weight table (`DEFAULT_WEIGHTS`). -/
def DEFAULT_WEIGHTS : Weights :=
  { w_name := 1 / 5, w_desc := 1 / 5, w_price := 3 / 20, w_quality := 3 / 20
    w_location := 1 / 10, w_availability := 1 / 10, w_size := 1 / 10 }

/-- Adaptive weight resolver (`calculateActiveWeights`): zero the weights of
unprovided fields, then normalize the active ones to sum to 1. -/
def calculateActiveWeights (material : MaterialWithoutId) : Weights :=
  let provided := isFieldProvided material
  let activeWeights : Weights :=
    { w_name := if provided.hasName then DEFAULT_WEIGHTS.w_name else 0
      w_desc := if provided.hasDescription then DEFAULT_WEIGHTS.w_desc else 0
      w_price := if provided.hasPrice then DEFAULT_WEIGHTS.w_price else 0
      w_quality := if provided.hasQuality then DEFAULT_WEIGHTS.w_quality else 0
      w_location := if provided.hasLocation then DEFAULT_WEIGHTS.w_location else 0
      w_availability := if provided.hasAvailability then DEFAULT_WEIGHTS.w_availability else 0
      w_size := if provided.hasSize then DEFAULT_WEIGHTS.w_size else 0 }
  let totalWeight :=
    activeWeights.w_name + activeWeights.w_desc + activeWeights.w_price +
    activeWeights.w_quality + activeWeights.w_location +
    activeWeights.w_availability + activeWeights.w_size
  if 0 < totalWeight then
    { w_name := activeWeights.w_name / totalWeight
      w_desc := activeWeights.w_desc / totalWeight
      w_price := activeWeights.w_price / totalWeight
      w_quality := activeWeights.w_quality / totalWeight
      w_location := activeWeights.w_location / totalWeight
      w_availability := activeWeights.w_availability / totalWeight
      w_size := activeWeights.w_size / totalWeight }
  else activeWeights

/-- Minimum score required under a hard constraint (`HARD_CONSTRAINT_MIN_SCORE`). -/
def HARD_CONSTRAINT_MIN_SCORE : ℚ := 4 / 5

/-- Hard-constraint filter (`passesHardConstraints`); location and
availability are handled by the radius/overlap filters instead. -/
def passesHardConstraints (scoreBreakdown : ScoreBreakdown)
    (constraints : Option SearchConstraints) : Bool :=
  match constraints with
  | none => true
  | some c =>
      if c.name = some ConstraintType.hard ∧
          jltB scoreBreakdown.name (finJ HARD_CONSTRAINT_MIN_SCORE) then false
      else if c.description = some ConstraintType.hard ∧
          jltB scoreBreakdown.description (finJ HARD_CONSTRAINT_MIN_SCORE) then false
      else if c.price = some ConstraintType.hard ∧
          jltB scoreBreakdown.price (finJ HARD_CONSTRAINT_MIN_SCORE) then false
      else if c.condition = some ConstraintType.hard ∧
          jltB scoreBreakdown.quality (finJ HARD_CONSTRAINT_MIN_SCORE) then false
      else if c.dimensions = some ConstraintType.hard ∧
          jltB scoreBreakdown.size (finJ HARD_CONSTRAINT_MIN_SCORE) then false
      else true

/-! ### Candidate aggregation and per-candidate scoring -/

/-- One hit returned by a vector index: candidate id, similarity score, and
(for the name index) the attached metadata. -/
structure VecMatch where
  id : String
  score : ℚ
  metadata : Option MetaData
deriving DecidableEq

/-- Aggregated per-candidate vector scores (the `scoreMap` entries). -/
structure NScore where
  nameScore : ℚ
  descScore : ℚ
deriving DecidableEq

/-- One result row (`RetrievalMatch`). -/
structure RetrievalMatch where
  materialId : String
  score : JNum
  scoreBreakdown : ScoreBreakdown
deriving DecidableEq

/-- Result of a retrieval (`RetrievalResult`). -/
structure RetrievalResult where
  «matches» : List RetrievalMatch
  weights : Weights
deriving DecidableEq

/-- Options of the adaptive-mode retrieval (`RetrievalOptions`). -/
structure RetrievalOptions where
  constraints : Option SearchConstraints
  location : Option LocationSearch
  availableTime : Option AvailableTime
deriving DecidableEq

/-- `Map.set` on an insertion-ordered association list: replace in place if
the key exists, append otherwise. -/
def setEntry {α : Type} (m : List (String × α)) (k : String) (v : α) :
    List (String × α) :=
  match m with
  | [] => [(k, v)]
  | (k₂, v₂) :: rest =>
      if k₂ = k then (k, v) :: rest else (k₂, v₂) :: setEntry rest k v

/-- Metadata map built from the name-index response (`metadataMap`); the
source stores `match.metadata as MetaData`, which may be `undefined`. -/
def buildMetadataMap (nameMatches : List VecMatch) : List (String × Option MetaData) :=
  nameMatches.foldl (fun m v => setEntry m v.id v.metadata) []

/-- Aggregate the two index responses into the insertion-ordered `scoreMap`. -/
def buildScoreMap (nameMatches descMatches : List VecMatch) : List (String × NScore) :=
  let s₁ := nameMatches.foldl
    (fun m v => setEntry m v.id { nameScore := v.score, descScore := 0 }) []
  descMatches.foldl
    (fun m v =>
      match List.lookup v.id m with
      | some e => setEntry m v.id { nameScore := e.nameScore, descScore := v.score }
      | none => setEntry m v.id { nameScore := 0, descScore := v.score })
    s₁

/-- Location hard filter as applied in the retrieval loop: only active when a
location search is present and the location constraint is hard. -/
def locationFilterPass (dist : Location → Location → ℚ)
    (options : Option RetrievalOptions) (metadata : Option MetaData) : Bool :=
  match options with
  | none => true
  | some opts =>
      match opts.location with
      | none => true
      | some ls =>
          if (opts.constraints.bind (fun c => c.location)) = some ConstraintType.hard then
            isWithinRadius dist (some { latitude := ls.latitude, longitude := ls.longitude })
              (metadata.bind (fun md => md.location)) ls.radiusKm
          else true

/-- Availability hard filter as applied in the retrieval loop. -/
def timeFilterPass (options : Option RetrievalOptions) (metadata : Option MetaData) : Bool :=
  match options with
  | none => true
  | some opts =>
      match opts.availableTime with
      | none => true
      | some avt =>
          if (opts.constraints.bind (fun c => c.availability)) = some ConstraintType.hard then
            timeRangesOverlap avt.tfrom avt.tto
              ((metadata.bind (fun md => md.availableTime)).bind (fun t => t.tfrom))
              ((metadata.bind (fun md => md.availableTime)).bind (fun t => t.tto))
          else true

/-- Per-candidate price score (`s_price`): only computed for provided fields. -/
def s_priceOf (material : MaterialWithoutId) (provided : ProvidedFields)
    (metadata : Option MetaData) : Option ℚ :=
  if provided.hasPrice then
    lowerIsBetterScore material.price (metadata.map (fun md => md.price))
  else none

/-- Per-candidate quality score (`s_quality`); note the inverted polarity. -/
def s_qualityOf (material : MaterialWithoutId) (provided : ProvidedFields)
    (metadata : Option MetaData) : Option ℚ :=
  if provided.hasQuality then
    lowerIsBetterScore (metadata.map (fun md => md.quality)) material.quality
  else none

/-- Per-candidate location score (`s_location`). -/
def s_locationOf (dist : Location → Location → ℚ) (material : MaterialWithoutId)
    (provided : ProvidedFields) (metadata : Option MetaData) : Option ℚ :=
  if provided.hasLocation then
    distance dist material.location (metadata.bind (fun md => md.location))
  else none

/-- Per-candidate availability score (`s_availability`). -/
def s_availabilityOf (material : MaterialWithoutId) (provided : ProvidedFields)
    (metadata : Option MetaData) : Option JNum :=
  if provided.hasAvailability then
    availabilityScore material.availableTime (metadata.bind (fun md => md.availableTime))
  else none

/-- Per-candidate size score (`s_size`). -/
def s_sizeOf (material : MaterialWithoutId) (provided : ProvidedFields)
    (metadata : Option MetaData) : Option JNum :=
  if provided.hasSize then sizeScore material.size (metadata.bind (fun md => md.size))
  else none

/-- Score breakdown of one candidate (absent scores default to 0 via `?? 0`;
an availability NaN is not absent and survives the default). -/
def breakdownOf (dist : Location → Location → ℚ) (material : MaterialWithoutId)
    (provided : ProvidedFields) (scores : NScore) (metadata : Option MetaData) :
    ScoreBreakdown :=
  { name := finJ scores.nameScore
    description := finJ scores.descScore
    price := finJ ((s_priceOf material provided metadata).getD 0)
    quality := finJ ((s_qualityOf material provided metadata).getD 0)
    location := finJ ((s_locationOf dist material provided metadata).getD 0)
    availability := (s_availabilityOf material provided metadata).getD (finJ 0)
    size := (s_sizeOf material provided metadata).getD (finJ 0) }

/-- The (score, weight) pairs the combined score is taken over: name and
description always, the structured fields only when provided and defined. -/
def scoreComponentsOf (dist : Location → Location → ℚ) (material : MaterialWithoutId)
    (provided : ProvidedFields) (weights : Weights) (scores : NScore)
    (metadata : Option MetaData) : List (Option JNum × ℚ) :=
  [(some (finJ scores.nameScore), weights.w_name),
   (some (finJ scores.descScore), weights.w_desc)] ++
  (if provided.hasPrice then
    ((s_priceOf material provided metadata).map
      (fun v => (some (finJ v), weights.w_price))).toList
   else []) ++
  (if provided.hasQuality then
    ((s_qualityOf material provided metadata).map
      (fun v => (some (finJ v), weights.w_quality))).toList
   else []) ++
  (if provided.hasLocation then
    ((s_locationOf dist material provided metadata).map
      (fun v => (some (finJ v), weights.w_location))).toList
   else []) ++
  (if provided.hasAvailability then
    ((s_availabilityOf material provided metadata).map
      (fun v => (some v, weights.w_availability))).toList
   else []) ++
  (if provided.hasSize then
    ((s_sizeOf material provided metadata).map
      (fun v => (some v, weights.w_size))).toList
   else [])

/-- Body of the retrieval loop for one `scoreMap` entry: apply the two hard
filters and the hard-constraint threshold, and otherwise emit the scored
match (`continue` becomes `none`). -/
def scoreEntry (dist : Location → Location → ℚ) (material : MaterialWithoutId)
    (provided : ProvidedFields) (weights : Weights) (options : Option RetrievalOptions)
    (materialId : String) (scores : NScore) (metadata : Option MetaData) :
    Option RetrievalMatch :=
  if locationFilterPass dist options metadata = false then none
  else if timeFilterPass options metadata = false then none
  else if passesHardConstraints (breakdownOf dist material provided scores metadata)
      (options.bind (fun o => o.constraints)) = false then none
  else
    some { materialId := materialId
           score := combinedScore (scoreComponentsOf dist material provided weights scores metadata)
           scoreBreakdown := breakdownOf dist material provided scores metadata }

/-- All surviving candidates, in `scoreMap` insertion order (`queryMatches`). -/
def queryMatchesOf (dist : Location → Location → ℚ) (material : MaterialWithoutId)
    (options : Option RetrievalOptions) (nameMatches descMatches : List VecMatch) :
    List RetrievalMatch :=
  let weights := calculateActiveWeights material
  let provided := isFieldProvided material
  let metadataMap := buildMetadataMap nameMatches
  (buildScoreMap nameMatches descMatches).filterMap
    (fun e => scoreEntry dist material provided weights options e.1 e.2
      ((List.lookup e.1 metadataMap).join))

/-- Stable insert for the descending sort by combined score.  The element
goes before the first list member whose score the comparator
`(a, b) => b.score - a.score` ranks strictly below it; comparisons involving
NaN keep the original order, matching the engine treatment of a NaN
comparator result. -/
def insertMatch (x : RetrievalMatch) : List RetrievalMatch → List RetrievalMatch
  | [] => [x]
  | y :: l =>
      if jltB (finJ 0) (jsubJ x.score y.score) then x :: y :: l
      else y :: insertMatch x l

/-- Stable sort modelling `queryMatches.sort((a, b) => b.score - a.score)`;
any stable sort computes the same permutation for a consistent comparator. -/
def sortMatches (l : List RetrievalMatch) : List RetrievalMatch :=
  l.foldl (fun acc x => insertMatch x acc) []

/-- Re-zero weights of fields with no nonzero score among the returned
matches, then renormalize (`adjustedWeights`, lines 341 to 382). -/
def adjustWeights (weights : Weights) (topMatches : List RetrievalMatch) : Weights :=
  let hasAny := fun (f : RetrievalMatch → JNum) =>
    topMatches.any (fun m => jltB (finJ 0) (f m))
  let a : Weights :=
    { w_name := if hasAny (fun m => m.scoreBreakdown.name) then weights.w_name else 0
      w_desc := if hasAny (fun m => m.scoreBreakdown.description) then weights.w_desc else 0
      w_price := if hasAny (fun m => m.scoreBreakdown.price) then weights.w_price else 0
      w_quality := if hasAny (fun m => m.scoreBreakdown.quality) then weights.w_quality else 0
      w_location := if hasAny (fun m => m.scoreBreakdown.location) then weights.w_location else 0
      w_availability := if hasAny (fun m => m.scoreBreakdown.availability) then weights.w_availability else 0
      w_size := if hasAny (fun m => m.scoreBreakdown.size) then weights.w_size else 0 }
  let total := a.w_name + a.w_desc + a.w_price + a.w_quality + a.w_location +
    a.w_availability + a.w_size
  if 0 < total then
    { w_name := a.w_name / total, w_desc := a.w_desc / total
      w_price := a.w_price / total, w_quality := a.w_quality / total
      w_location := a.w_location / total, w_availability := a.w_availability / total
      w_size := a.w_size / total }
  else a

/-- Adaptive-mode retrieval (`retrieveSimilarMaterials` of vectorStore.ts).
The embedding call and the two concurrent index queries are external; their
responses are the `nameMatches`/`descMatches` inputs. -/
def retrieveSimilarMaterials (dist : Location → Location → ℚ) (topK : ℕ)
    (material : MaterialWithoutId) (options : Option RetrievalOptions)
    (nameMatches descMatches : List VecMatch) : RetrievalResult :=
  let weights := calculateActiveWeights material
  let queryMatches := queryMatchesOf dist material options nameMatches descMatches
  let topMatches := (sortMatches queryMatches).take topK
  { «matches» := topMatches, weights := adjustWeights weights topMatches }

/-! ### Explicit-weight mode (the second, unnamed vectorStore variant) -/

/-- Rescale caller weights from the 0 to 100 range to 0 to 1
(`normalizeWeights`). -/
def normalizeWeights (weights : Weights) : Weights :=
  { w_name := weights.w_name / 100
    w_desc := weights.w_desc / 100
    w_price := weights.w_price / 100
    w_quality := weights.w_quality / 100
    w_location := weights.w_location / 100
    w_availability := weights.w_availability / 100
    w_size := weights.w_size / 100 }

/-- Explicit-mode weight resolution, modelling lines 125 to 147 of the
explicit-weight `retrieveSimilarMaterials`: divide by 100, force the name
weight to 0, renormalize the rest when their sum is positive. -/
def explicitResolvedWeights (weights : Weights) : Weights :=
  let n := normalizeWeights weights
  let n := { n with w_name := 0 }
  let totalWeightWithoutName :=
    n.w_desc + n.w_price + n.w_quality + n.w_location + n.w_availability + n.w_size
  if 0 < totalWeightWithoutName then
    let scale := 1 / totalWeightWithoutName
    { n with
      w_desc := n.w_desc * scale
      w_price := n.w_price * scale
      w_quality := n.w_quality * scale
      w_location := n.w_location * scale
      w_availability := n.w_availability * scale
      w_size := n.w_size * scale }
  else n

/-! ### Specification-side definitions

These follow the wording of the specification (and, for corrected claims,
the claim text), to be compared with the source embeddings above. -/

/-- Weighted combine as the specification words it: drop undefined pairs,
return 0 on zero weight total, the raw weighted sum when the total is
within `1e-4` of 1, and the weighted sum divided by the weight total
otherwise. -/
def combinedScoreSpec (scores : List (Option ℚ × ℚ)) : ℚ :=
  let defined := scores.filterMap (fun sw => sw.1.map (fun s => (s, sw.2)))
  let tw := (defined.map (fun p => p.2)).sum
  let ws := (defined.map (fun p => p.1 * p.2)).sum
  if tw = 0 then 0 else if |tw - 1| < 1 / 10000 then ws else ws / tw

/-- Availability score exactly as claim C3 words it: unbounded sides are
read as infinities, non-overlap scores 0, and otherwise the score is
`min(1, overlapDuration / querySpanDuration)` where the query span falls
back to the overlap duration *only* for a fully unbounded query range, a
case the undefinedness clause already removes, so the span is always
`end - start` of the query range. -/
def availabilityScoreClaim (expected mtch : Option AvailableTime) : Option JNum :=
  match expected, mtch with
  | some e, some m =>
      if e.tfrom.isNone ∧ e.tto.isNone then none
      else if m.tfrom.isNone ∧ m.tto.isNone then none
      else if JTime.ltB (endOf e.tto) (startOf m.tfrom) ∨
          JTime.ltB (endOf m.tto) (startOf e.tfrom) then some (finJ 0)
      else
        let overlapDuration := JTime.subJ
          (JTime.minJ (endOf e.tto) (endOf m.tto))
          (JTime.maxJ (startOf e.tfrom) (startOf m.tfrom))
        let querySpan := JTime.subJ (endOf e.tto) (startOf e.tfrom)
        some (jminJ (finJ 1) (jdivJ overlapDuration querySpan))
  | _, _ => none

/-- Availability score as the amended claim words it, phrased over the
optional rational bounds directly: undefined when either side has no bound;
0 when the ranges do not overlap; otherwise `min(1, overlap / span)` where
the span falls back to the overlap duration when the query range is
unbounded on *either* side, a nonpositive span scores 1, and the score is
NaN when both durations are infinite (overlapping ranges unbounded on the
same side). -/
def availabilityScoreSpec (expected mtch : Option AvailableTime) : Option JNum :=
  match expected, mtch with
  | some e, some m =>
      if e.tfrom.isNone ∧ e.tto.isNone then none
      else if m.tfrom.isNone ∧ m.tto.isNone then none
      else if ((match e.tto, m.tfrom with
          | some b, some c => decide (b < c)
          | _, _ => false) ||
        (match m.tto, e.tfrom with
          | some d, some a => decide (d < a)
          | _, _ => false)) then some (finJ 0)
      else
        let oStart : Option ℚ :=
          match e.tfrom, m.tfrom with
          | some a, some c => some (max a c)
          | some a, none => some a
          | none, some c => some c
          | none, none => none
        let oEnd : Option ℚ :=
          match e.tto, m.tto with
          | some b, some d => some (min b d)
          | some b, none => some b
          | none, some d => some d
          | none, none => none
        let oDur : Option ℚ :=
          match oEnd, oStart with
          | some y, some x => some (y - x)
          | _, _ => none
        let span : Option ℚ :=
          if e.tfrom.isNone ∨ e.tto.isNone then oDur
          else
            match e.tto, e.tfrom with
            | some b, some a => some (b - a)
            | _, _ => none
        match span with
        | some s =>
            if s ≤ 0 then some (finJ 1)
            else
              match oDur with
              | some d => some (finJ (min 1 (d / s)))
              | none => some (finJ 1)
        | none => some none
  | _, _ => none

/-! ### Basic lemmas about the JavaScript value domain -/

@[simp] lemma jmulW_finJ (a w : ℚ) : jmulW (finJ a) w = finJ (a * w) := rfl

@[simp] lemma jaddJ_finJ (a b : ℚ) : jaddJ (finJ a) (finJ b) = finJ (a + b) := rfl

@[simp] lemma jaddJ_nan (x : JNum) : jaddJ none x = none := by
  cases x <;> rfl

@[simp] lemma jmulW_nan (w : ℚ) : jmulW none w = none := rfl

lemma finJ_injective (a b : ℚ) (h : finJ a = finJ b) : a = b := by
  simpa [finJ, JTime.fin.injEq] using h

@[simp] lemma jltB_finJ (a b : ℚ) : jltB (finJ a) (finJ b) = decide (a < b) := rfl

@[simp] lemma jleB_finJ (a b : ℚ) : jleB (finJ a) (finJ b) = decide (a ≤ b) := rfl

@[simp] lemma jInUnitB_finJ (q : ℚ) : jInUnitB (finJ q) = decide (0 ≤ q ∧ q ≤ 1) := rfl

lemma JTime.maxJ_fin_fin (a b : ℚ) :
    JTime.maxJ (JTime.fin a) (JTime.fin b) = JTime.fin (max a b) := by
  simp only [JTime.maxJ, JTime.ltB]
  by_cases h : a < b
  · simp [h, max_eq_right h.le]
  · simp [h, max_eq_left (not_lt.mp h)]

lemma JTime.minJ_fin_fin (a b : ℚ) :
    JTime.minJ (JTime.fin a) (JTime.fin b) = JTime.fin (min a b) := by
  simp only [JTime.minJ, JTime.ltB]
  by_cases h : a < b
  · simp [h, min_eq_left h.le]
  · simp [h, min_eq_right (not_lt.mp h)]

/-- The fold inside `combinedScore`, restricted to lists whose scores are
plain (finite, non-NaN) numbers, computes the two sums of the spec. -/
lemma combineStep_foldl (l : List (Option ℚ × ℚ)) (t s : ℚ) :
    (l.map (fun sw => ((sw.1.map finJ : Option JNum), sw.2))).foldl combineStep (t, finJ s) =
      (t + ((l.filterMap (fun sw => sw.1.map (fun v => (v, sw.2)))).map (fun p => p.2)).sum,
       finJ (s + ((l.filterMap (fun sw => sw.1.map (fun v => (v, sw.2)))).map
         (fun p => p.1 * p.2)).sum)) := by
  induction l generalizing t s with
  | nil => simp
  | cons hd tl ih =>
      rcases hd with ⟨sc, w⟩
      cases sc with
      | none =>
          simp only [List.map_cons, List.foldl_cons]
          rw [show combineStep (t, finJ s) ((none : Option ℚ).map finJ, w) = (t, finJ s) from rfl]
          rw [ih]
          simp [List.filterMap_cons]
      | some v =>
          simp only [List.map_cons, List.foldl_cons]
          rw [show combineStep (t, finJ s) ((some v).map finJ, w) = (t + w, finJ (s + v * w))
            from rfl]
          rw [ih]
          simp only [List.filterMap_cons, Option.map_some', List.map_cons, List.sum_cons,
            Prod.mk.injEq]
          constructor
          · ring
          · congr 1
            ring

/-- Claim C1: `combinedScore`, on any list of optional plain scores with their
weights, ignores undefined scores, returns 0 when the defined weights sum to
0, returns the raw weighted sum when that weight sum is within `1e-4` of 1,
and the weighted sum divided by the weight sum otherwise — exactly the
specification-side `combinedScoreSpec`. -/
theorem combinedScore_eq_spec (scores : List (Option ℚ × ℚ)) :
    combinedScore (scores.map (fun sw => ((sw.1.map finJ : Option JNum), sw.2))) =
      finJ (combinedScoreSpec scores) := by
  unfold combinedScore combinedScoreSpec
  rcases scores with _ | ⟨hd, tl⟩
  · simp
  · have hfold := combineStep_foldl (hd :: tl) 0 0
    simp only [List.length_map, List.length_cons]
    simp only [hfold, zero_add]
    have hlen : ¬ (tl.length + 1 = 0) := Nat.succ_ne_zero _
    simp only [if_neg hlen]
    set dl := (hd :: tl).filterMap (fun sw => sw.1.map (fun v => (v, sw.2))) with hdl
    split_ifs with h0 h1
    · rfl
    · rfl
    · simp [jdivW, h0, finJ]

/-! ### Lemmas for the extended-line arithmetic -/

@[simp] lemma maxJ_ninf_left (x : JTime) : JTime.maxJ JTime.ninf x = x := by
  cases x <;> rfl

@[simp] lemma maxJ_fin_ninf (a : ℚ) : JTime.maxJ (JTime.fin a) JTime.ninf = JTime.fin a := rfl

@[simp] lemma minJ_pinf_left (x : JTime) : JTime.minJ JTime.pinf x = x := by
  cases x <;> rfl

@[simp] lemma minJ_fin_pinf (b : ℚ) : JTime.minJ (JTime.fin b) JTime.pinf = JTime.fin b := rfl

@[simp] lemma jminJ_finJ_finJ (x y : ℚ) : jminJ (finJ x) (finJ y) = finJ (min x y) := by
  simp [jminJ, finJ, JTime.minJ_fin_fin]

@[simp] lemma jminJ_none_right (x : JNum) : jminJ x none = none := by
  cases x <;> rfl

@[simp] lemma jdivJ_pinf_pinf : jdivJ (some JTime.pinf) (some JTime.pinf) = none := rfl

lemma jdivJ_fin_fin_of_ne (od sd : ℚ) (h : sd ≠ 0) :
    jdivJ (some (JTime.fin od)) (some (JTime.fin sd)) = finJ (od / sd) := by
  simp [jdivJ, h]

/-- Claim C3 (counterexample): for the query range `[0, ∞)` (only `from`
set, so not fully unbounded) against the material range `[-10, 5]`, the code
falls back to the overlap duration as the query span and scores 1, while the
claim's formula — fallback only for a fully unbounded query — divides the
overlap 5 by the infinite query span and scores 0. -/
theorem availabilityScore_fallback_counterexample :
    availabilityScore (some { tfrom := some 0, tto := none })
        (some { tfrom := some (-10), tto := some 5 }) = some (finJ 1) ∧
    availabilityScoreClaim (some { tfrom := some 0, tto := none })
        (some { tfrom := some (-10), tto := some 5 }) = some (finJ 0) := by
  constructor <;>
    norm_num [availabilityScore, availabilityScoreClaim, startOf, endOf, JTime.ltB,
      JTime.subJ, JTime.maxJ, JTime.minJ, jleB, JTime.leB, jminJ, jdivJ, finJ]

/-- Claim C3 (amended): for every pair of time ranges, the availability
score is undefined when either range has no bound at all, 0 when the ranges
do not overlap, and otherwise `min(1, overlapDuration / querySpanDuration)`
— where the query span falls back to the overlap duration whenever the
query range is unbounded on *either* side (not only a fully unbounded one),
a nonpositive query span scores 1, and the result is the JavaScript NaN
when overlap and span are both infinite (overlapping ranges unbounded on
the same side). -/
theorem availabilityScore_eq_amendedSpec (e m : Option AvailableTime) :
    availabilityScore e m = availabilityScoreSpec e m := by
  rcases e with _ | ⟨ef, et⟩
  · rfl
  rcases m with _ | ⟨mf, mt⟩
  · rfl
  rcases ef with _ | a <;> rcases et with _ | b <;> rcases mf with _ | c <;> rcases mt with _ | d <;>
    simp only [availabilityScore, availabilityScoreSpec, startOf, endOf, Option.isNone_none,
      Option.isNone_some, and_self, and_false, false_and, and_true, true_and, if_true, if_false,
      Bool.false_or, Bool.or_false, decide_eq_true_eq, JTime.maxJ_fin_fin, JTime.minJ_fin_fin,
      maxJ_ninf_left, maxJ_fin_ninf, minJ_pinf_left, minJ_fin_pinf, JTime.subJ, jleB, JTime.leB,
      JTime.ltB, Option.isNone, Bool.false_eq_true, or_false, false_or, reduceCtorEq,
      Bool.or_eq_true, decide_eq_true_eq, finJ] <;>
    first
      | rfl
      | (simp [jdivJ, jminJ, finJ]; done)
      | (split_ifs <;>
          first
            | rfl
            | (exfalso; linarith)
            | (rw [jdivJ_fin_fin_of_ne _ _ (by linarith)]
               simp [jminJ, JTime.minJ_fin_fin, finJ]))

/-- Claim C10 (counterexample): the claim is stated for *every* pair of
touching ranges, but for the degenerate query range `[5, 5]` touching the
material range `[5, 10]` at its single instant, the overlap filter passes
and the availability score is 1 (the nonpositive-span rule), not 0. -/
theorem touching_ranges_counterexample :
    timeRangesOverlap (some 5) (some 5) (some 5) (some 10) = true ∧
    availabilityScore (some { tfrom := some 5, tto := some 5 })
      (some { tfrom := some 5, tto := some 10 }) = some (finJ 1) := by
  constructor <;>
    norm_num [timeRangesOverlap, availabilityScore, startOf, endOf, JTime.ltB, JTime.leB,
      JTime.subJ, JTime.maxJ, JTime.minJ, jleB, jminJ, jdivJ, finJ]

/-- Claim C10 (amended): for ranges that touch at exactly one instant — the
query end equals the material start or the material end equals the query
start — *and* a query range of positive length, `timeRangesOverlap` passes
(the comparison is non-strict) while `availabilityScore` is 0 (the overlap
duration is zero against a positive query span). -/
theorem touching_ranges_overlap_but_score_zero (a b c d : ℚ)
    (h : (b = c ∧ a < b ∧ c ≤ d) ∨ (d = a ∧ c ≤ d ∧ a < b)) :
    timeRangesOverlap (some a) (some b) (some c) (some d) = true ∧
    availabilityScore (some { tfrom := some a, tto := some b })
      (some { tfrom := some c, tto := some d }) = some (finJ 0) := by
  have hbc : ¬ b < c := by rcases h with ⟨h1, h2, h3⟩ | ⟨h1, h2, h3⟩ <;> linarith
  have hda : ¬ d < a := by rcases h with ⟨h1, h2, h3⟩ | ⟨h1, h2, h3⟩ <;> linarith
  have hab : a < b := by rcases h with ⟨h1, h2, h3⟩ | ⟨h1, h2, h3⟩ <;> linarith
  constructor
  · simp [timeRangesOverlap, startOf, endOf, JTime.ltB, hbc, hda]
  · simp only [availabilityScore, startOf, endOf, Option.isNone_some, and_self, and_false,
      false_and, if_false, JTime.ltB, JTime.leB, decide_eq_true_eq, JTime.maxJ_fin_fin,
      JTime.minJ_fin_fin, JTime.subJ, jleB, finJ, reduceCtorEq, or_self, Bool.or_eq_true]
    split_ifs with hov hle
    · exfalso
      rcases hov with h | h
      · exact hbc h
      · exact hda h
    · exfalso
      linarith
    · rw [jdivJ_fin_fin_of_ne _ _ (sub_pos.mpr hab).ne']
      have hnum : min b d - max a c = 0 := by
        rcases h with ⟨h1, h2, h3⟩ | ⟨h1, h2, h3⟩
        · rw [min_eq_left (by linarith), max_eq_right (by linarith)]
          linarith
        · rw [min_eq_right (by linarith), max_eq_left (by linarith)]
          linarith
      rw [hnum, zero_div]
      norm_num [jminJ, JTime.minJ, JTime.ltB, finJ]

/-- Claim C5: a hard geographic or availability filter never auto-fails a
candidate for want of data: a missing center, point or radius (including the
falsy radius 0) passes the radius filter, a side with no time bounds passes
the overlap filter, and in the retrieval loop a candidate without metadata
passes both hard filters. -/
theorem missing_data_passes_hard_filters (dist : Location → Location → ℚ)
    (center point : Option Location) (radiusKm : Option ℚ)
    (sf st mf mt : Option ℚ) (options : Option RetrievalOptions)
    (hmiss : center = none ∨ point = none ∨ radiusKm = none ∨ radiusKm = some 0)
    (htime : (sf = none ∧ st = none) ∨ (mf = none ∧ mt = none)) :
    isWithinRadius dist center point radiusKm = true ∧
    timeRangesOverlap sf st mf mt = true ∧
    locationFilterPass dist options none = true ∧
    timeFilterPass options none = true := by
  refine ⟨?_, ?_, ?_, ?_⟩
  · rcases hmiss with h | h | h | h <;>
      simp [isWithinRadius, h, jsTruthyNum]
  · rcases htime with ⟨h1, h2⟩ | ⟨h1, h2⟩ <;>
      simp [timeRangesOverlap, h1, h2]
  · rcases options with _ | opts
    · rfl
    · rcases hl : opts.location with _ | ls
      · simp [locationFilterPass, hl]
      · simp only [locationFilterPass, hl]
        split_ifs with hc
        · simp [isWithinRadius]
        · rfl
  · rcases options with _ | opts
    · rfl
    · rcases ha : opts.availableTime with _ | avt
      · simp [timeFilterPass, ha]
      · simp only [timeFilterPass, ha]
        split_ifs with hc
        · show timeRangesOverlap avt.tfrom avt.tto none none = true
          simp only [timeRangesOverlap, Option.isNone_none]
          split_ifs <;> simp_all
        · rfl

/-- Claim C6: a query providing only a non-empty name and a non-empty
description yields adaptive weights with price, quality, location,
availability and size exactly 0 and name plus description weights summing
to 1. -/
theorem nameDescOnly_adaptive_weights (m : MaterialWithoutId) (n d : String)
    (hname : m.name = some n) (hn : trimmedNonempty n = true)
    (hdesc : m.description = some d) (hd : trimmedNonempty d = true)
    (hprice : m.price = none) (hqual : m.quality = none) (hloc : m.location = none)
    (havail : m.availableTime = none) (hsize : m.size = none) :
    (calculateActiveWeights m).w_price = 0 ∧ (calculateActiveWeights m).w_quality = 0 ∧
    (calculateActiveWeights m).w_location = 0 ∧
    (calculateActiveWeights m).w_availability = 0 ∧
    (calculateActiveWeights m).w_size = 0 ∧
    (calculateActiveWeights m).w_name + (calculateActiveWeights m).w_desc = 1 := by
  have hne : n ≠ "" := by
    rintro rfl
    rw [show trimmedNonempty "" = false from rfl] at hn
    exact Bool.false_ne_true hn
  have hde : d ≠ "" := by
    rintro rfl
    rw [show trimmedNonempty "" = false from rfl] at hd
    exact Bool.false_ne_true hd
  have hp : isFieldProvided m =
      { hasName := true, hasDescription := true, hasPrice := false, hasQuality := false
        hasLocation := false, hasAvailability := false, hasSize := false } := by
    simp [isFieldProvided, hname, hdesc, hprice, hqual, hloc, havail, hsize, jsTruthyStr,
      hne, hde, hn, hd]
  simp only [calculateActiveWeights, hp, DEFAULT_WEIGHTS]
  norm_num

/-- Claim C7: in explicit-weight mode the caller weights are divided by 100,
the name weight is then forced to 0, and the remaining weights are
renormalized to sum to 1 (each becoming its divided value over the divided
total); when the divided non-name total is 0 they are all left at their
divided values, which are all 0 for nonnegative inputs. -/
theorem explicit_weights_resolution (w : Weights)
    (hnn : 0 ≤ w.w_name ∧ 0 ≤ w.w_desc ∧ 0 ≤ w.w_price ∧ 0 ≤ w.w_quality ∧
      0 ≤ w.w_location ∧ 0 ≤ w.w_availability ∧ 0 ≤ w.w_size) :
    (explicitResolvedWeights w).w_name = 0 ∧
    (w.w_desc / 100 + w.w_price / 100 + w.w_quality / 100 + w.w_location / 100 +
        w.w_availability / 100 + w.w_size / 100 = 0 →
      explicitResolvedWeights w =
        { w_name := 0, w_desc := 0, w_price := 0, w_quality := 0, w_location := 0
          w_availability := 0, w_size := 0 }) ∧
    (w.w_desc / 100 + w.w_price / 100 + w.w_quality / 100 + w.w_location / 100 +
        w.w_availability / 100 + w.w_size / 100 ≠ 0 →
      ((explicitResolvedWeights w).w_desc + (explicitResolvedWeights w).w_price +
        (explicitResolvedWeights w).w_quality + (explicitResolvedWeights w).w_location +
        (explicitResolvedWeights w).w_availability + (explicitResolvedWeights w).w_size = 1 ∧
       (explicitResolvedWeights w).w_desc =
         w.w_desc / 100 / (w.w_desc / 100 + w.w_price / 100 + w.w_quality / 100 +
           w.w_location / 100 + w.w_availability / 100 + w.w_size / 100) ∧
       (explicitResolvedWeights w).w_price =
         w.w_price / 100 / (w.w_desc / 100 + w.w_price / 100 + w.w_quality / 100 +
           w.w_location / 100 + w.w_availability / 100 + w.w_size / 100) ∧
       (explicitResolvedWeights w).w_quality =
         w.w_quality / 100 / (w.w_desc / 100 + w.w_price / 100 + w.w_quality / 100 +
           w.w_location / 100 + w.w_availability / 100 + w.w_size / 100) ∧
       (explicitResolvedWeights w).w_location =
         w.w_location / 100 / (w.w_desc / 100 + w.w_price / 100 + w.w_quality / 100 +
           w.w_location / 100 + w.w_availability / 100 + w.w_size / 100) ∧
       (explicitResolvedWeights w).w_availability =
         w.w_availability / 100 / (w.w_desc / 100 + w.w_price / 100 + w.w_quality / 100 +
           w.w_location / 100 + w.w_availability / 100 + w.w_size / 100) ∧
       (explicitResolvedWeights w).w_size =
         w.w_size / 100 / (w.w_desc / 100 + w.w_price / 100 + w.w_quality / 100 +
           w.w_location / 100 + w.w_availability / 100 + w.w_size / 100))) := by
  obtain ⟨h1, h2, h3, h4, h5, h6, h7⟩ := hnn
  set t := w.w_desc / 100 + w.w_price / 100 + w.w_quality / 100 + w.w_location / 100 +
    w.w_availability / 100 + w.w_size / 100 with ht
  by_cases hpos : 0 < t
  · have hpos' : 0 < w.w_desc / 100 + w.w_price / 100 + w.w_quality / 100 +
        w.w_location / 100 + w.w_availability / 100 + w.w_size / 100 := ht ▸ hpos
    have hres : explicitResolvedWeights w =
        { w_name := 0
          w_desc := w.w_desc / 100 * (1 / t)
          w_price := w.w_price / 100 * (1 / t)
          w_quality := w.w_quality / 100 * (1 / t)
          w_location := w.w_location / 100 * (1 / t)
          w_availability := w.w_availability / 100 * (1 / t)
          w_size := w.w_size / 100 * (1 / t) } := by
      simp only [explicitResolvedWeights, normalizeWeights]
      rw [if_pos hpos']
    refine ⟨by rw [hres], fun h0 => absurd h0 (ne_of_gt hpos), fun _ => ?_⟩
    rw [hres]
    simp only [mul_one_div, and_true]
    rw [div_add_div_same, div_add_div_same, div_add_div_same, div_add_div_same,
      div_add_div_same, ← ht]
    exact div_self (ne_of_gt hpos)
  · have hz : t = 0 := by
      have hge : 0 ≤ t := by
        rw [ht]
        positivity
      linarith
    have hz' : w.w_desc / 100 + w.w_price / 100 + w.w_quality / 100 + w.w_location / 100 +
        w.w_availability / 100 + w.w_size / 100 = 0 := ht ▸ hz
    have d2 : 0 ≤ w.w_desc / 100 := by positivity
    have d3 : 0 ≤ w.w_price / 100 := by positivity
    have d4 : 0 ≤ w.w_quality / 100 := by positivity
    have d5 : 0 ≤ w.w_location / 100 := by positivity
    have d6 : 0 ≤ w.w_availability / 100 := by positivity
    have d7 : 0 ≤ w.w_size / 100 := by positivity
    have e1 : w.w_desc / 100 = 0 := by linarith
    have e2 : w.w_price / 100 = 0 := by linarith
    have e3 : w.w_quality / 100 = 0 := by linarith
    have e4 : w.w_location / 100 = 0 := by linarith
    have e5 : w.w_availability / 100 = 0 := by linarith
    have e6 : w.w_size / 100 = 0 := by linarith
    have hres : explicitResolvedWeights w =
        { w_name := 0, w_desc := 0, w_price := 0, w_quality := 0, w_location := 0
          w_availability := 0, w_size := 0 } := by
      simp only [explicitResolvedWeights, normalizeWeights]
      rw [if_neg (by rw [e1, e2, e3, e4, e5, e6]; norm_num)]
      simp [e1, e2, e3, e4, e5, e6]
    exact ⟨by rw [hres], fun _ => hres, fun hne => absurd hz hne⟩

/-- Witness for claim C10 at the query `[0, 5]` touching the material
`[5, 10]`. -/
theorem touching_ranges_overlap_but_score_zero_witness :
    timeRangesOverlap (some 0) (some 5) (some 5) (some 10) = true ∧
    availabilityScore (some { tfrom := some 0, tto := some 5 })
      (some { tfrom := some 5, tto := some 10 }) = some (finJ 0) :=
  touching_ranges_overlap_but_score_zero 0 5 5 10 (Or.inl ⟨rfl, by norm_num, by norm_num⟩)

/-- Witness for claim C5 with a missing radius and an unbounded search
range. -/
theorem missing_data_passes_hard_filters_witness :
    ((none : Option Location) = none ∨ (none : Option Location) = none ∨
      (none : Option ℚ) = none ∨ (none : Option ℚ) = some 0) ∧
    (((none : Option ℚ) = none ∧ (none : Option ℚ) = none) ∨
      ((some 3 : Option ℚ) = none ∧ (some 7 : Option ℚ) = none)) ∧
    (isWithinRadius (fun _ _ => 0) none none none = true ∧
     timeRangesOverlap none none (some 3) (some 7) = true ∧
     locationFilterPass (fun _ _ => 0) none none = true ∧
     timeFilterPass none none = true) :=
  ⟨Or.inl rfl, Or.inl ⟨rfl, rfl⟩,
    missing_data_passes_hard_filters (fun _ _ => 0) none none none none none (some 3)
      (some 7) none (Or.inl rfl) (Or.inl ⟨rfl, rfl⟩)⟩

/-- Witness for claim C6 on a concrete name-and-description-only query. -/
theorem nameDescOnly_adaptive_weights_witness :
    (calculateActiveWeights
        { name := some ("steel beam"), description := some ("reused steel beam")
          price := none, quality := none, size := none, location := none
          availableTime := none }).w_name +
      (calculateActiveWeights
        { name := some ("steel beam"), description := some ("reused steel beam")
          price := none, quality := none, size := none, location := none
          availableTime := none }).w_desc = 1 :=
  (nameDescOnly_adaptive_weights _ ("steel beam") ("reused steel beam") rfl (by decide)
    rfl (by decide) rfl rfl rfl rfl rfl).2.2.2.2.2

/-- Witness for claim C7 on a concrete 0 to 100 weight vector. -/
theorem explicit_weights_resolution_witness :
    (explicitResolvedWeights
        { w_name := 10, w_desc := 20, w_price := 30, w_quality := 40, w_location := 0
          w_availability := 0, w_size := 0 }).w_name = 0 :=
  (explicit_weights_resolution
    { w_name := 10, w_desc := 20, w_price := 30, w_quality := 40, w_location := 0
      w_availability := 0, w_size := 0 } (by norm_num)).1

/-! ### Weight bookkeeping lemmas for the adaptive pipeline -/

/-- Total default weight over provided fields — the `totalWeight` computed
inside `calculateActiveWeights`. -/
def activeWeightTotal (material : MaterialWithoutId) : ℚ :=
  let p := isFieldProvided material
  (if p.hasName then DEFAULT_WEIGHTS.w_name else 0) +
  (if p.hasDescription then DEFAULT_WEIGHTS.w_desc else 0) +
  (if p.hasPrice then DEFAULT_WEIGHTS.w_price else 0) +
  (if p.hasQuality then DEFAULT_WEIGHTS.w_quality else 0) +
  (if p.hasLocation then DEFAULT_WEIGHTS.w_location else 0) +
  (if p.hasAvailability then DEFAULT_WEIGHTS.w_availability else 0) +
  (if p.hasSize then DEFAULT_WEIGHTS.w_size else 0)

lemma calculateActiveWeights_pos (material : MaterialWithoutId)
    (h : 0 < activeWeightTotal material) :
    calculateActiveWeights material =
      { w_name := (if (isFieldProvided material).hasName then DEFAULT_WEIGHTS.w_name else 0) /
          activeWeightTotal material
        w_desc := (if (isFieldProvided material).hasDescription then DEFAULT_WEIGHTS.w_desc else 0) /
          activeWeightTotal material
        w_price := (if (isFieldProvided material).hasPrice then DEFAULT_WEIGHTS.w_price else 0) /
          activeWeightTotal material
        w_quality := (if (isFieldProvided material).hasQuality then DEFAULT_WEIGHTS.w_quality else 0) /
          activeWeightTotal material
        w_location := (if (isFieldProvided material).hasLocation then DEFAULT_WEIGHTS.w_location else 0) /
          activeWeightTotal material
        w_availability := (if (isFieldProvided material).hasAvailability then DEFAULT_WEIGHTS.w_availability else 0) /
          activeWeightTotal material
        w_size := (if (isFieldProvided material).hasSize then DEFAULT_WEIGHTS.w_size else 0) /
          activeWeightTotal material } := by
  simp only [calculateActiveWeights, activeWeightTotal] at *
  rw [if_pos h]

lemma calculateActiveWeights_nonpos (material : MaterialWithoutId)
    (h : ¬ 0 < activeWeightTotal material) :
    calculateActiveWeights material =
      { w_name := if (isFieldProvided material).hasName then DEFAULT_WEIGHTS.w_name else 0
        w_desc := if (isFieldProvided material).hasDescription then DEFAULT_WEIGHTS.w_desc else 0
        w_price := if (isFieldProvided material).hasPrice then DEFAULT_WEIGHTS.w_price else 0
        w_quality := if (isFieldProvided material).hasQuality then DEFAULT_WEIGHTS.w_quality else 0
        w_location := if (isFieldProvided material).hasLocation then DEFAULT_WEIGHTS.w_location else 0
        w_availability := if (isFieldProvided material).hasAvailability then DEFAULT_WEIGHTS.w_availability else 0
        w_size := if (isFieldProvided material).hasSize then DEFAULT_WEIGHTS.w_size else 0 } := by
  simp only [calculateActiveWeights, activeWeightTotal] at *
  rw [if_neg h]

/-- Each provided-field flag forces a positive contribution, so a nonpositive
total means no field is provided. -/
lemma flags_false_of_total_nonpos (material : MaterialWithoutId)
    (h : ¬ 0 < activeWeightTotal material) :
    (isFieldProvided material).hasName = false ∧
    (isFieldProvided material).hasDescription = false ∧
    (isFieldProvided material).hasPrice = false ∧
    (isFieldProvided material).hasQuality = false ∧
    (isFieldProvided material).hasLocation = false ∧
    (isFieldProvided material).hasAvailability = false ∧
    (isFieldProvided material).hasSize = false := by
  simp only [activeWeightTotal, DEFAULT_WEIGHTS] at h
  set p := isFieldProvided material
  have n1 : (0:ℚ) ≤ if p.hasName then (1:ℚ)/5 else 0 := by split_ifs <;> norm_num
  have n2 : (0:ℚ) ≤ if p.hasDescription then (1:ℚ)/5 else 0 := by split_ifs <;> norm_num
  have n3 : (0:ℚ) ≤ if p.hasPrice then (3:ℚ)/20 else 0 := by split_ifs <;> norm_num
  have n4 : (0:ℚ) ≤ if p.hasQuality then (3:ℚ)/20 else 0 := by split_ifs <;> norm_num
  have n5 : (0:ℚ) ≤ if p.hasLocation then (1:ℚ)/10 else 0 := by split_ifs <;> norm_num
  have n6 : (0:ℚ) ≤ if p.hasAvailability then (1:ℚ)/10 else 0 := by split_ifs <;> norm_num
  have n7 : (0:ℚ) ≤ if p.hasSize then (1:ℚ)/10 else 0 := by split_ifs <;> norm_num
  refine ⟨?_, ?_, ?_, ?_, ?_, ?_, ?_⟩ <;>
    [cases hb : p.hasName; cases hb : p.hasDescription; cases hb : p.hasPrice;
     cases hb : p.hasQuality; cases hb : p.hasLocation; cases hb : p.hasAvailability;
     cases hb : p.hasSize] <;>
    first
      | rfl
      | (exfalso
         rw [if_pos hb] at h
         exact h (by linarith [n1, n2, n3, n4, n5, n6, n7]))

/-- Sum of the weights of one conditionally pushed rational score component. -/
lemma cond_block_sum_q (b : Bool) (o : Option ℚ) (w : ℚ)
    (h : b = true → o.isSome = true) :
    ((if b then (o.map (fun v => ((some (finJ v) : Option JNum), w))).toList else []).map
      (fun p => p.2)).sum = if b then w else 0 := by
  cases b
  · simp
  · obtain ⟨v, hv⟩ := Option.isSome_iff_exists.mp (h rfl)
    simp [hv]

/-- Sum of the weights of one conditionally pushed JavaScript-number score
component. -/
lemma cond_block_sum_j (b : Bool) (o : Option JNum) (w : ℚ)
    (h : b = true → o.isSome = true) :
    ((if b then (o.map (fun v => ((some v : Option JNum), w))).toList else []).map
      (fun p => p.2)).sum = if b then w else 0 := by
  cases b
  · simp
  · obtain ⟨v, hv⟩ := Option.isSome_iff_exists.mp (h rfl)
    simp [hv]

lemma if_weight_div (b : Bool) (d T : ℚ) :
    (if b then (if b then d else 0) / T else 0) = (if b then d else 0) / T := by
  cases b <;> simp

/-- Claim C2 (counterexample): a query providing name, description and
price, scored against a candidate with no metadata, reaches the combined
score with defined-score weights summing to 8/11 — neither 1 nor all zero:
the price weight 3/11 is resolved but its score is undefined, so it drops
out of the applied components. -/
theorem weights_at_application_counterexample :
    ¬ (((scoreComponentsOf (fun _ _ => 0)
          { name := some ("a"), description := some ("b"), price := some 10, quality := none
            size := none, location := none, availableTime := none }
          (isFieldProvided
            { name := some ("a"), description := some ("b"), price := some 10, quality := none
              size := none, location := none, availableTime := none })
          (calculateActiveWeights
            { name := some ("a"), description := some ("b"), price := some 10, quality := none
              size := none, location := none, availableTime := none })
          { nameScore := 1/2, descScore := 1/2 } none).map (fun p => p.2)).sum = 1 ∨
        (calculateActiveWeights
            { name := some ("a"), description := some ("b"), price := some 10, quality := none
              size := none, location := none, availableTime := none } =
          { w_name := 0, w_desc := 0, w_price := 0, w_quality := 0, w_location := 0
            w_availability := 0, w_size := 0 } ∧
         combinedScore (scoreComponentsOf (fun _ _ => 0)
            { name := some ("a"), description := some ("b"), price := some 10, quality := none
              size := none, location := none, availableTime := none }
            (isFieldProvided
              { name := some ("a"), description := some ("b"), price := some 10, quality := none
                size := none, location := none, availableTime := none })
            (calculateActiveWeights
              { name := some ("a"), description := some ("b"), price := some 10, quality := none
                size := none, location := none, availableTime := none })
            { nameScore := 1/2, descScore := 1/2 } none) = finJ 0)) := by
  have hiso : isFieldProvided
      { name := some ("a"), description := some ("b"), price := some 10, quality := none
        size := none, location := none, availableTime := none } =
      { hasName := true, hasDescription := true, hasPrice := true, hasQuality := false
        hasLocation := false, hasAvailability := false, hasSize := false } := by
    simp [isFieldProvided, jsTruthyStr, trimmedNonempty, jsTruthyNum]
  have hw : calculateActiveWeights
      { name := some ("a"), description := some ("b"), price := some 10, quality := none
        size := none, location := none, availableTime := none } =
      { w_name := 4/11, w_desc := 4/11, w_price := 3/11, w_quality := 0, w_location := 0
        w_availability := 0, w_size := 0 } := by
    simp only [calculateActiveWeights, hiso, DEFAULT_WEIGHTS]
    norm_num
  rw [hw]
  push_neg
  refine ⟨?_, fun hcon => absurd hcon (by simp)⟩
  norm_num [scoreComponentsOf, hiso, hw, s_priceOf, s_qualityOf, s_locationOf,
    s_availabilityOf, s_sizeOf, lowerIsBetterScore]

/-- Claim C2 (amended): at the point the resolved weights are applied to a
candidate, *provided that every field the query provides has a defined score
for this candidate*, the weights of the applied (defined-score) components
sum to 1; when no field is provided at all, every resolved weight is 0 and
the combined score is 0.  (Without the definedness proviso the applied
weights sum to 1 minus the weight of the provided-but-undefined fields, as
the counterexample shows.) -/
theorem weights_at_application (dist : Location → Location → ℚ)
    (material : MaterialWithoutId) (sc : NScore) (metadata : Option MetaData)
    (h3 : (isFieldProvided material).hasPrice = true →
      (s_priceOf material (isFieldProvided material) metadata).isSome = true)
    (h4 : (isFieldProvided material).hasQuality = true →
      (s_qualityOf material (isFieldProvided material) metadata).isSome = true)
    (h5 : (isFieldProvided material).hasLocation = true →
      (s_locationOf dist material (isFieldProvided material) metadata).isSome = true)
    (h6 : (isFieldProvided material).hasAvailability = true →
      (s_availabilityOf material (isFieldProvided material) metadata).isSome = true)
    (h7 : (isFieldProvided material).hasSize = true →
      (s_sizeOf material (isFieldProvided material) metadata).isSome = true) :
    ((scoreComponentsOf dist material (isFieldProvided material)
        (calculateActiveWeights material) sc metadata).map (fun p => p.2)).sum = 1 ∨
    (calculateActiveWeights material =
        { w_name := 0, w_desc := 0, w_price := 0, w_quality := 0, w_location := 0
          w_availability := 0, w_size := 0 } ∧
     combinedScore (scoreComponentsOf dist material (isFieldProvided material)
        (calculateActiveWeights material) sc metadata) = finJ 0) := by
  have hsum : ((scoreComponentsOf dist material (isFieldProvided material)
      (calculateActiveWeights material) sc metadata).map (fun p => p.2)).sum =
      (calculateActiveWeights material).w_name + (calculateActiveWeights material).w_desc +
      (if (isFieldProvided material).hasPrice then (calculateActiveWeights material).w_price else 0) +
      (if (isFieldProvided material).hasQuality then (calculateActiveWeights material).w_quality else 0) +
      (if (isFieldProvided material).hasLocation then (calculateActiveWeights material).w_location else 0) +
      (if (isFieldProvided material).hasAvailability then (calculateActiveWeights material).w_availability else 0) +
      (if (isFieldProvided material).hasSize then (calculateActiveWeights material).w_size else 0) := by
    simp only [scoreComponentsOf, List.map_append, List.sum_append, List.map_cons,
      List.map_nil, List.sum_cons, List.sum_nil]
    rw [cond_block_sum_q _ _ _ h3, cond_block_sum_q _ _ _ h4, cond_block_sum_q _ _ _ h5,
      cond_block_sum_j _ _ _ h6, cond_block_sum_j _ _ _ h7]
    ring
  by_cases hT : 0 < activeWeightTotal material
  · left
    rw [hsum, calculateActiveWeights_pos material hT]
    simp only [if_weight_div]
    rw [div_add_div_same, div_add_div_same, div_add_div_same, div_add_div_same,
      div_add_div_same, div_add_div_same]
    rw [show (if (isFieldProvided material).hasName then DEFAULT_WEIGHTS.w_name else 0) +
        (if (isFieldProvided material).hasDescription then DEFAULT_WEIGHTS.w_desc else 0) +
        (if (isFieldProvided material).hasPrice then DEFAULT_WEIGHTS.w_price else 0) +
        (if (isFieldProvided material).hasQuality then DEFAULT_WEIGHTS.w_quality else 0) +
        (if (isFieldProvided material).hasLocation then DEFAULT_WEIGHTS.w_location else 0) +
        (if (isFieldProvided material).hasAvailability then DEFAULT_WEIGHTS.w_availability else 0) +
        (if (isFieldProvided material).hasSize then DEFAULT_WEIGHTS.w_size else 0) =
        activeWeightTotal material from rfl]
    exact div_self (ne_of_gt hT)
  · right
    obtain ⟨f1, f2, f3, f4, f5, f6, f7⟩ := flags_false_of_total_nonpos material hT
    have hw0 : calculateActiveWeights material =
        { w_name := 0, w_desc := 0, w_price := 0, w_quality := 0, w_location := 0
          w_availability := 0, w_size := 0 } := by
      rw [calculateActiveWeights_nonpos material hT, f1, f2, f3, f4, f5, f6, f7]
      simp
    refine ⟨hw0, ?_⟩
    simp only [scoreComponentsOf, f3, f4, f5, f6, f7, if_false, Bool.false_eq_true,
      List.append_nil, hw0]
    simp [combinedScore, combineStep, finJ]

/-- Witness for claim C2: a query with name and price against a candidate
whose metadata carries a price; every provided field has a defined score,
and the applied weights sum to 1. -/
theorem weights_at_application_witness :
    ((scoreComponentsOf (fun _ _ => 0)
        { name := some ("a"), description := none, price := some 10, quality := none
          size := none, location := none, availableTime := none }
        (isFieldProvided
          { name := some ("a"), description := none, price := some 10, quality := none
            size := none, location := none, availableTime := none })
        (calculateActiveWeights
          { name := some ("a"), description := none, price := some 10, quality := none
            size := none, location := none, availableTime := none })
        { nameScore := 1/2, descScore := 0 }
        (some { quality := 1, price := 5, location := none, size := none
                availableTime := none })).map (fun p => p.2)).sum = 1 ∨
    (calculateActiveWeights
        { name := some ("a"), description := none, price := some 10, quality := none
          size := none, location := none, availableTime := none } =
      { w_name := 0, w_desc := 0, w_price := 0, w_quality := 0, w_location := 0
        w_availability := 0, w_size := 0 } ∧
     combinedScore (scoreComponentsOf (fun _ _ => 0)
        { name := some ("a"), description := none, price := some 10, quality := none
          size := none, location := none, availableTime := none }
        (isFieldProvided
          { name := some ("a"), description := none, price := some 10, quality := none
            size := none, location := none, availableTime := none })
        (calculateActiveWeights
          { name := some ("a"), description := none, price := some 10, quality := none
            size := none, location := none, availableTime := none })
        { nameScore := 1/2, descScore := 0 }
        (some { quality := 1, price := 5, location := none, size := none
                availableTime := none })) = finJ 0) :=
  weights_at_application (fun _ _ => 0) _ _ _
    (fun _ => by norm_num [s_priceOf, isFieldProvided, jsTruthyStr, trimmedNonempty,
      jsTruthyNum, lowerIsBetterScore])
    (fun hq => absurd hq (by norm_num [isFieldProvided, jsTruthyStr, trimmedNonempty,
      jsTruthyNum]))
    (fun hl => absurd hl (by norm_num [isFieldProvided, jsTruthyStr, trimmedNonempty,
      jsTruthyNum]))
    (fun ha => absurd ha (by norm_num [isFieldProvided, jsTruthyStr, trimmedNonempty,
      jsTruthyNum]))
    (fun hs => absurd hs (by norm_num [isFieldProvided, jsTruthyStr, trimmedNonempty,
      jsTruthyNum]))

/-! ### Sorting and membership lemmas for the retrieval output -/

lemma length_insertMatch (x : RetrievalMatch) (l : List RetrievalMatch) :
    (insertMatch x l).length = l.length + 1 := by
  induction l with
  | nil => rfl
  | cons y l ih =>
      simp only [insertMatch]
      split_ifs <;> simp [ih]

lemma length_sortMatches_aux (l acc : List RetrievalMatch) :
    (l.foldl (fun acc x => insertMatch x acc) acc).length = acc.length + l.length := by
  induction l generalizing acc with
  | nil => simp
  | cons y l ih =>
      simp only [List.foldl_cons, ih, length_insertMatch, List.length_cons]
      omega

lemma length_sortMatches (l : List RetrievalMatch) : (sortMatches l).length = l.length := by
  simpa using length_sortMatches_aux l []

lemma mem_insertMatch (x y : RetrievalMatch) (l : List RetrievalMatch) :
    x ∈ insertMatch y l ↔ x = y ∨ x ∈ l := by
  induction l with
  | nil => simp [insertMatch]
  | cons z l ih =>
      simp only [insertMatch]
      split_ifs
      · simp [or_comm, or_left_comm]
      · simp [ih]
        tauto

lemma mem_sortMatches_aux (x : RetrievalMatch) (l acc : List RetrievalMatch) :
    x ∈ l.foldl (fun acc x => insertMatch x acc) acc ↔ x ∈ acc ∨ x ∈ l := by
  induction l generalizing acc with
  | nil => simp
  | cons y l ih =>
      simp only [List.foldl_cons, ih, mem_insertMatch, List.mem_cons]
      tauto

lemma mem_sortMatches (x : RetrievalMatch) (l : List RetrievalMatch) :
    x ∈ sortMatches l ↔ x ∈ l := by
  simpa [sortMatches] using mem_sortMatches_aux x l []

/-- Survival in `scoreEntry` requires passing the hard-constraint filter,
and the surviving match carries the very breakdown the filter inspected. -/
lemma scoreEntry_passes (dist : Location → Location → ℚ) (material : MaterialWithoutId)
    (provided : ProvidedFields) (weights : Weights) (options : Option RetrievalOptions)
    (materialId : String) (sc : NScore) (metadata : Option MetaData) (m : RetrievalMatch)
    (h : scoreEntry dist material provided weights options materialId sc metadata = some m) :
    passesHardConstraints m.scoreBreakdown (options.bind (fun o => o.constraints)) = true := by
  unfold scoreEntry at h
  split_ifs at h with h1 h2 h3
  rw [← Option.some.inj h]
  simp only [Bool.not_eq_false] at h3
  exact h3

/-- Every returned match came out of `scoreEntry` on some aggregated
candidate. -/
lemma mem_matches_exists_entry (dist : Location → Location → ℚ) (topK : ℕ)
    (material : MaterialWithoutId) (options : Option RetrievalOptions)
    (nameMatches descMatches : List VecMatch) (m : RetrievalMatch)
    (hm : m ∈ (retrieveSimilarMaterials dist topK material options
        nameMatches descMatches).«matches») :
    ∃ e ∈ buildScoreMap nameMatches descMatches,
      scoreEntry dist material (isFieldProvided material) (calculateActiveWeights material)
        options e.1 e.2 ((List.lookup e.1 (buildMetadataMap nameMatches)).join) = some m := by
  have h1 : m ∈ sortMatches (queryMatchesOf dist material options nameMatches descMatches) :=
    List.mem_of_mem_take hm
  rw [mem_sortMatches] at h1
  simp only [queryMatchesOf, List.mem_filterMap] at h1
  obtain ⟨e, he, hs⟩ := h1
  exact ⟨e, he, hs⟩

/-- Claim C4: for every hard-constrained scored field — name, description,
price, quality (the `condition` constraint) and size (the `dimensions`
constraint) — a candidate whose score for that field is below 0.8 never
appears in the returned matches: every returned match has all its
hard-constrained field scores at least 0.8. -/
theorem hard_constraint_excludes_below_threshold (dist : Location → Location → ℚ)
    (topK : ℕ) (material : MaterialWithoutId) (options : Option RetrievalOptions)
    (nameMatches descMatches : List VecMatch) (cc : SearchConstraints)
    (hcc : options.bind (fun o => o.constraints) = some cc) (m : RetrievalMatch)
    (hm : m ∈ (retrieveSimilarMaterials dist topK material options
        nameMatches descMatches).«matches») :
    (cc.name = some ConstraintType.hard →
      jltB m.scoreBreakdown.name (finJ HARD_CONSTRAINT_MIN_SCORE) = false) ∧
    (cc.description = some ConstraintType.hard →
      jltB m.scoreBreakdown.description (finJ HARD_CONSTRAINT_MIN_SCORE) = false) ∧
    (cc.price = some ConstraintType.hard →
      jltB m.scoreBreakdown.price (finJ HARD_CONSTRAINT_MIN_SCORE) = false) ∧
    (cc.condition = some ConstraintType.hard →
      jltB m.scoreBreakdown.quality (finJ HARD_CONSTRAINT_MIN_SCORE) = false) ∧
    (cc.dimensions = some ConstraintType.hard →
      jltB m.scoreBreakdown.size (finJ HARD_CONSTRAINT_MIN_SCORE) = false) := by
  obtain ⟨e, he, hs⟩ := mem_matches_exists_entry dist topK material options
    nameMatches descMatches m hm
  have hp := scoreEntry_passes dist material (isFieldProvided material)
    (calculateActiveWeights material) options e.1 e.2
    ((List.lookup e.1 (buildMetadataMap nameMatches)).join) m hs
  rw [hcc] at hp
  simp only [passesHardConstraints] at hp
  split_ifs at hp with g1 g2 g3 g4 g5
  refine ⟨fun h => ?_, fun h => ?_, fun h => ?_, fun h => ?_, fun h => ?_⟩
  · cases hx : jltB m.scoreBreakdown.name (finJ HARD_CONSTRAINT_MIN_SCORE)
    · rfl
    · exact absurd ⟨h, hx⟩ g1
  · cases hx : jltB m.scoreBreakdown.description (finJ HARD_CONSTRAINT_MIN_SCORE)
    · rfl
    · exact absurd ⟨h, hx⟩ g2
  · cases hx : jltB m.scoreBreakdown.price (finJ HARD_CONSTRAINT_MIN_SCORE)
    · rfl
    · exact absurd ⟨h, hx⟩ g3
  · cases hx : jltB m.scoreBreakdown.quality (finJ HARD_CONSTRAINT_MIN_SCORE)
    · rfl
    · exact absurd ⟨h, hx⟩ g4
  · cases hx : jltB m.scoreBreakdown.size (finJ HARD_CONSTRAINT_MIN_SCORE)
    · rfl
    · exact absurd ⟨h, hx⟩ g5

lemma isFinB_iff (x : JNum) : isFinB x = true ↔ ∃ q, x = finJ q := by
  cases x with
  | none => simp [isFinB, finJ]
  | some t => cases t <;> simp [isFinB, finJ]

/-- Inserting a finite-score match into a descending list keeps it
descending. -/
lemma pairwise_insertMatch (x : RetrievalMatch) (l : List RetrievalMatch)
    (hx : isFinB x.score = true) (hl : ∀ y ∈ l, isFinB y.score = true)
    (h : l.Pairwise (fun a b => jleB b.score a.score = true)) :
    (insertMatch x l).Pairwise (fun a b => jleB b.score a.score = true) := by
  induction l with
  | nil => simp [insertMatch]
  | cons y l ih =>
      obtain ⟨qx, hqx⟩ := (isFinB_iff _).mp hx
      obtain ⟨qy, hqy⟩ := (isFinB_iff _).mp (hl y (by simp))
      rw [List.pairwise_cons] at h
      obtain ⟨hy, hl'⟩ := h
      simp only [insertMatch]
      split_ifs with hcond
      · rw [hqx, hqy] at hcond
        simp only [jsubJ, finJ, JTime.subJ, jltB, JTime.ltB, decide_eq_true_eq,
          sub_pos] at hcond
        rw [List.pairwise_cons]
        refine ⟨?_, List.pairwise_cons.mpr ⟨hy, hl'⟩⟩
        intro z hz
        rcases List.mem_cons.mp hz with rfl | hzl
        · rw [hqx, hqy, jleB_finJ]
          exact decide_eq_true_iff.mpr (le_of_lt hcond)
        · obtain ⟨qz, hqz⟩ := (isFinB_iff _).mp (hl z (by simp [hzl]))
          have h1 := hy z hzl
          rw [hqz, hqy, jleB_finJ, decide_eq_true_iff] at h1
          rw [hqz, hqx, jleB_finJ]
          exact decide_eq_true_iff.mpr (le_trans h1 (le_of_lt hcond))
      · rw [hqx, hqy] at hcond
        simp only [jsubJ, finJ, JTime.subJ, jltB, JTime.ltB, decide_eq_true_eq,
          sub_pos, not_lt] at hcond
        rw [List.pairwise_cons]
        refine ⟨?_, ih (fun z hz => hl z (by simp [hz])) hl'⟩
        intro z hz
        rcases (mem_insertMatch z x l).mp hz with rfl | hzl
        · rw [hqx, hqy, jleB_finJ]
          exact decide_eq_true_iff.mpr hcond
        · exact hy z hzl

lemma pairwise_sortMatches_aux (l : List RetrievalMatch) :
    ∀ acc : List RetrievalMatch, (∀ y ∈ acc, isFinB y.score = true) →
    acc.Pairwise (fun a b => jleB b.score a.score = true) →
    (∀ y ∈ l, isFinB y.score = true) →
    (l.foldl (fun acc x => insertMatch x acc) acc).Pairwise
      (fun a b => jleB b.score a.score = true) := by
  induction l with
  | nil =>
      intro acc _ hacc2 _
      simpa using hacc2
  | cons hd tl ih =>
      intro acc hacc1 hacc2 hl
      simp only [List.foldl_cons]
      apply ih
      · intro z hz
        rcases (mem_insertMatch z hd acc).mp hz with rfl | hzl
        · exact hl z (by simp)
        · exact hacc1 z hzl
      · exact pairwise_insertMatch hd acc (hl hd (by simp)) hacc1 hacc2
      · intro z hz
        exact hl z (by simp [hz])

lemma pairwise_sortMatches (l : List RetrievalMatch)
    (hl : ∀ y ∈ l, isFinB y.score = true) :
    (sortMatches l).Pairwise (fun a b => jleB b.score a.score = true) :=
  pairwise_sortMatches_aux l [] (by simp) (by simp) hl

/-- Claim C9: when every surviving candidate has a finite (non-NaN) combined
score, the returned match list is sorted by combined score in descending
order, and its length is the minimum of `topK` and the number of surviving
candidates — in particular at most `topK`, and exactly `topK` when at least
`topK` candidates survive. -/
theorem matches_sorted_and_truncated (dist : Location → Location → ℚ) (topK : ℕ)
    (material : MaterialWithoutId) (options : Option RetrievalOptions)
    (nameMatches descMatches : List VecMatch)
    (hfin : ∀ m ∈ queryMatchesOf dist material options nameMatches descMatches,
      isFinB m.score = true) :
    (retrieveSimilarMaterials dist topK material options nameMatches
        descMatches).«matches».length =
      min topK (queryMatchesOf dist material options nameMatches descMatches).length ∧
    (retrieveSimilarMaterials dist topK material options nameMatches
        descMatches).«matches».Pairwise (fun a b => jleB b.score a.score = true) := by
  constructor
  · show ((sortMatches (queryMatchesOf dist material options nameMatches
        descMatches)).take topK).length = _
    rw [List.length_take, length_sortMatches]
  · show ((sortMatches (queryMatchesOf dist material options nameMatches
        descMatches)).take topK).Pairwise _
    exact (pairwise_sortMatches _ hfin).sublist (List.take_sublist _ _)

/-! ### Concrete fixtures for witnesses -/

/-- Zero distance kernel for concrete instantiations. -/
def dist0 : Location → Location → ℚ := fun _ _ => 0

/-- Concrete name-only query material for concrete instantiations. -/
def qmat : MaterialWithoutId :=
  { name := some ("q")
    description := none
    price := none
    quality := none
    size := none
    location := none
    availableTime := none }

/-- Constraints declaring only the name field hard. -/
def hardNameConstraints : SearchConstraints :=
  { name := some ConstraintType.hard
    description := none
    price := none
    condition := none
    dimensions := none
    location := none
    availability := none }

/-- Options carrying only the hard name constraint. -/
def hardNameOptions : RetrievalOptions :=
  { constraints := some hardNameConstraints
    location := none
    availableTime := none }

/-- A metadata-free index hit. -/
def cand (id : String) (score : ℚ) : VecMatch :=
  { id := id, score := score, metadata := none }

/-- The match produced for a metadata-free candidate of the name-only query:
name similarity `s`, all structured scores 0, combined score `s`. -/
def qmatMatch (id : String) (s : ℚ) : RetrievalMatch :=
  { materialId := id
    score := finJ s
    scoreBreakdown :=
      { name := finJ s
        description := finJ 0
        price := finJ 0
        quality := finJ 0
        location := finJ 0
        availability := finJ 0
        size := finJ 0 } }

/-- The retrieval for the name-only query against one metadata-free
candidate, under the hard name constraint, keeps the candidate. -/
lemma retrieve_qmat_single :
    (retrieveSimilarMaterials dist0 1 qmat (some hardNameOptions)
      [cand ("c") (9/10)] []).«matches» = [qmatMatch ("c") (9/10)] := by
  norm_num [retrieveSimilarMaterials, queryMatchesOf, buildScoreMap, buildMetadataMap,
    setEntry, List.lookup, Option.join, scoreEntry, locationFilterPass, timeFilterPass,
    breakdownOf, scoreComponentsOf, s_priceOf, s_qualityOf, s_locationOf, s_availabilityOf,
    s_sizeOf, passesHardConstraints, combinedScore, combineStep,
    sortMatches, insertMatch, adjustWeights, HARD_CONSTRAINT_MIN_SCORE, jltB, JTime.ltB,
    finJ, jaddJ, jmulW, jdivW, beq_iff_eq, dist0, qmat, hardNameConstraints,
    hardNameOptions, cand, qmatMatch, isFieldProvided, calculateActiveWeights,
    DEFAULT_WEIGHTS, jsTruthyStr, jsTruthyNum,
    (show ("q" : String) ≠ "" by decide), (show trimmedNonempty ("q") = true by decide),
    List.filterMap_cons, List.filterMap_nil, reduceCtorEq,
    (show (none : Option ConstraintType) ≠ some ConstraintType.hard by decide)]

/-- Witness for claim C4: a concrete hard-name retrieval returns a match,
and that match's name score is not below the 0.8 threshold. -/
theorem hard_constraint_excludes_below_threshold_witness :
    hardNameConstraints.name = some ConstraintType.hard ∧
    jltB (qmatMatch ("c") (9/10)).scoreBreakdown.name (finJ HARD_CONSTRAINT_MIN_SCORE) =
      false :=
  ⟨rfl,
    (hard_constraint_excludes_below_threshold dist0 1 qmat (some hardNameOptions)
      [cand ("c") (9/10)] [] hardNameConstraints rfl (qmatMatch ("c") (9/10))
      (by rw [retrieve_qmat_single]; exact List.mem_singleton.mpr rfl)).1 rfl⟩

/-- Eight metadata-free candidates with distinct ids and scores, in no
particular score order. -/
def cands8 : List VecMatch :=
  [cand ("a") (1/10), cand ("b") (8/10), cand ("c") (3/10), cand ("d") (5/10),
   cand ("e") (2/10), cand ("f") (7/10), cand ("g") (4/10), cand ("h") (6/10)]

/-- The surviving candidates of the name-only query over the eight
candidates, in aggregation order. -/
lemma queryMatches_eight :
    queryMatchesOf dist0 qmat none cands8 [] =
      [qmatMatch ("a") (1/10), qmatMatch ("b") (8/10), qmatMatch ("c") (3/10),
       qmatMatch ("d") (5/10), qmatMatch ("e") (2/10), qmatMatch ("f") (7/10),
       qmatMatch ("g") (4/10), qmatMatch ("h") (6/10)] := by
  norm_num [queryMatchesOf, buildScoreMap, buildMetadataMap,
    setEntry, List.lookup, Option.join, scoreEntry, locationFilterPass, timeFilterPass,
    breakdownOf, scoreComponentsOf, s_priceOf, s_qualityOf, s_locationOf, s_availabilityOf,
    s_sizeOf, passesHardConstraints, combinedScore, combineStep,
    HARD_CONSTRAINT_MIN_SCORE, jltB, JTime.ltB,
    finJ, jaddJ, jmulW, jdivW, beq_iff_eq, dist0, qmat, cands8, cand, qmatMatch,
    isFieldProvided, calculateActiveWeights, DEFAULT_WEIGHTS, jsTruthyStr, jsTruthyNum,
    (show ("q" : String) ≠ "" by decide), (show trimmedNonempty ("q") = true by decide),
    List.filterMap_cons, List.filterMap_nil, reduceCtorEq]
  simp [qmatMatch, finJ]

/-- Witness for claim C9: eight surviving candidates, `topK = 5`, exactly 5
matches returned, sorted descending. -/
theorem matches_sorted_and_truncated_witness :
    (retrieveSimilarMaterials dist0 5 qmat none cands8 []).«matches».length = 5 ∧
    (retrieveSimilarMaterials dist0 5 qmat none cands8 []).«matches».Pairwise
      (fun a b => jleB b.score a.score = true) := by
  have hfin : ∀ m ∈ queryMatchesOf dist0 qmat none cands8 [], isFinB m.score = true := by
    rw [queryMatches_eight]
    intro m hm
    simp only [List.mem_cons, List.not_mem_nil, or_false] at hm
    rcases hm with rfl | rfl | rfl | rfl | rfl | rfl | rfl | rfl <;> rfl
  obtain ⟨hlen, hsort⟩ := matches_sorted_and_truncated dist0 5 qmat none cands8 [] hfin
  refine ⟨?_, hsort⟩
  rw [hlen, queryMatches_eight]
  rfl

/-! ### Range lemmas for the individual scorers (claim C8) -/

lemma lowerIsBetterScore_mem (e m v : ℚ)
    (h : lowerIsBetterScore (some e) (some m) = some v) : 0 ≤ v ∧ v ≤ 1 := by
  simp only [lowerIsBetterScore] at h
  split_ifs at h with h1 h2
  · cases h
    norm_num
  · cases h
    have hm : 0 < m := lt_of_not_le h1
    constructor
    · exact le_of_lt (div_pos one_pos (by linarith))
    · rw [div_le_one (by linarith)]
      linarith
  · cases h
    have hr : 0 ≤ max 0 ((m - e) / e) := le_max_left 0 _
    constructor
    · positivity
    · rw [div_le_one (by linarith)]
      linarith

lemma closerIsBetterScore_mem (e m : ℚ) (j : JNum) (he : 0 ≤ e)
    (h : closerIsBetterScore (some e) (some m) = some j) :
    ∃ q, j = finJ q ∧ 0 ≤ q ∧ q ≤ 1 := by
  simp only [closerIsBetterScore] at h
  split_ifs at h with h1 h2 h3
  · cases h
    exact ⟨1, rfl, by norm_num⟩
  · cases h
    have habs : (0:ℚ) ≤ |m| := abs_nonneg m
    refine ⟨1 / (1 + |m|), rfl, ?_, ?_⟩
    · exact div_nonneg (by norm_num) (by linarith)
    · rw [div_le_one (by linarith)]
      linarith
  · exfalso
    have he' : 0 < e := lt_of_le_of_ne he (fun hh => h2 hh.symm)
    have : 0 ≤ |e - m| / e := by positivity
    linarith
  · cases h
    have he' : 0 < e := lt_of_le_of_ne he (fun hh => h2 hh.symm)
    have hr : 0 ≤ |e - m| / e := by positivity
    refine ⟨1 / (1 + |e - m| / e), rfl, ?_, ?_⟩
    · positivity
    · rw [div_le_one (by linarith)]
      linarith

/-- The fold of `combinedScore` over components whose defined scores are
plain values in the unit interval and whose weights are nonnegative: the
weight total is the sum over defined components, and the weighted score sum
lies between 0 and the weight total. -/
lemma combineStep_foldl_bounds (l : List (Option JNum × ℚ)) :
    ∀ t s : ℚ,
    (∀ p ∈ l, (∀ j, p.1 = some j → ∃ q, j = finJ q ∧ 0 ≤ q ∧ q ≤ 1) ∧ 0 ≤ p.2) →
    ∃ W S, l.foldl combineStep (t, finJ s) = (t + W, finJ (s + S)) ∧
      0 ≤ S ∧ S ≤ W ∧ W = ((l.filter (fun p => p.1.isSome)).map (fun p => p.2)).sum := by
  induction l with
  | nil =>
      intro t s _
      exact ⟨0, 0, by simp, le_refl 0, le_refl 0, by simp⟩
  | cons hd tl ih =>
      intro t s hl
      obtain ⟨hhd, hw⟩ := hl hd (by simp)
      rcases hsc : hd.1 with _ | j
      · obtain ⟨W, S, hfold, hS0, hSW, hWsum⟩ :=
          ih t s (fun p hp => hl p (by simp [hp]))
        refine ⟨W, S, ?_, hS0, hSW, ?_⟩
        · simpa [List.foldl_cons, combineStep, hsc] using hfold
        · simp [List.filter_cons, hsc, hWsum]
      · obtain ⟨q, rfl, hq0, hq1⟩ := hhd j hsc
        obtain ⟨W, S, hfold, hS0, hSW, hWsum⟩ :=
          ih (t + hd.2) (s + q * hd.2) (fun p hp => hl p (by simp [hp]))
        refine ⟨hd.2 + W, q * hd.2 + S, ?_, ?_, ?_, ?_⟩
        · rw [List.foldl_cons]
          rw [show combineStep (t, finJ s) hd = (t + hd.2, finJ (s + q * hd.2)) by
            simp [combineStep, hsc]]
          rw [hfold, Prod.mk.injEq]
          constructor
          · ring
          · congr 1
            ring
        · positivity
        · have : q * hd.2 ≤ hd.2 := by nlinarith
          linarith
        · simp [List.filter_cons, hsc, hWsum]

/-- `combinedScore` stays in the unit interval when every defined score is a
plain value in the unit interval, the weights are nonnegative, and — in the
pre-normalized branch — the defined weight total is at most 1. -/
lemma combinedScore_mem (scores : List (Option JNum × ℚ))
    (hsc : ∀ p ∈ scores, (∀ j, p.1 = some j → ∃ q, j = finJ q ∧ 0 ≤ q ∧ q ≤ 1) ∧ 0 ≤ p.2)
    (htw : |((scores.filter (fun p => p.1.isSome)).map (fun p => p.2)).sum - 1| < 1 / 10000 →
      ((scores.filter (fun p => p.1.isSome)).map (fun p => p.2)).sum ≤ 1) :
    ∃ c, combinedScore scores = finJ c ∧ 0 ≤ c ∧ c ≤ 1 := by
  obtain ⟨W, S, hfold, hS0, hSW, hWsum⟩ := combineStep_foldl_bounds scores 0 0 hsc
  unfold combinedScore
  split_ifs with hlen
  · exact ⟨0, rfl, by norm_num⟩
  · rw [hfold]
    simp only [zero_add]
    split_ifs with h0 h1
    · exact ⟨0, rfl, by norm_num⟩
    · refine ⟨S, rfl, hS0, ?_⟩
      have hle : W ≤ 1 := by
        rw [hWsum] at h1 ⊢
        exact htw h1
      linarith
    · have hW0 : 0 < W := lt_of_le_of_ne (le_trans hS0 hSW) (fun hh => h0 hh.symm)
      refine ⟨S / W, by simp [jdivW, finJ, ne_of_gt hW0, h0], by positivity, ?_⟩
      rw [div_le_one hW0]
      exact hSW

/-- `min(1, D / s)` for a nonnegative numerator and positive denominator is a
plain value of the unit interval. -/
lemma minDiv_mem (D s : ℚ) (hD : 0 ≤ D) (hs : 0 < s) :
    ∃ q, jminJ (finJ 1) (jdivJ (finJ D) (finJ s)) = finJ q ∧ 0 ≤ q ∧ q ≤ 1 := by
  have hs' : s ≠ 0 := ne_of_gt hs
  have hdiv : jdivJ (finJ D) (finJ s) = finJ (D / s) := jdivJ_fin_fin_of_ne D s hs'
  rw [hdiv, jminJ_finJ_finJ]
  have hDs : 0 ≤ D / s := div_nonneg hD hs.le
  exact ⟨min 1 (D / s), rfl, le_min (by norm_num) hDs, min_le_left _ _⟩

/-- A defined `lowerIsBetterScore` value lies in the unit interval. -/
lemma lowerIsBetterScore_some_mem (x y : Option ℚ) (v : ℚ)
    (h : lowerIsBetterScore x y = some v) : 0 ≤ v ∧ v ≤ 1 := by
  rcases x with _ | e
  · exact absurd h (by simp [lowerIsBetterScore])
  rcases y with _ | m
  · exact absurd h (by simp [lowerIsBetterScore])
  exact lowerIsBetterScore_mem e m v h

/-- A defined `closerIsBetterScore` value against a nonnegative expectation is
a plain value of the unit interval. -/
lemma closerIsBetterScore_some_mem (x y : Option ℚ) (j : JNum)
    (hx : ∀ q, x = some q → 0 ≤ q) (h : closerIsBetterScore x y = some j) :
    ∃ q, j = finJ q ∧ 0 ≤ q ∧ q ≤ 1 := by
  rcases x with _ | e
  · exact absurd h (by simp [closerIsBetterScore])
  rcases y with _ | m
  · exact absurd h (by simp [closerIsBetterScore])
  exact closerIsBetterScore_mem e m j (hx e rfl) h

/-- A defined geographic `distance` score under a nonnegative distance kernel
lies in the unit interval. -/
lemma distance_mem (dist : Location → Location → ℚ) (hdist : ∀ a b, 0 ≤ dist a b)
    (x y : Option Location) (v : ℚ) (h : distance dist x y = some v) :
    0 ≤ v ∧ v ≤ 1 := by
  rcases x with _ | e
  · exact absurd h (by simp [distance, distanceInMeters])
  rcases y with _ | m
  · exact absurd h (by simp [distance, distanceInMeters])
  simp only [distance, distanceInMeters] at h
  split_ifs at h with hg
  have hd0 : 0 ≤ dist e m := hdist e m
  have hdd : 0 ≤ dist e m / 10000 := div_nonneg hd0 (by norm_num)
  cases h
  refine ⟨?_, ?_⟩
  · exact le_of_lt (div_pos one_pos (by linarith))
  · rw [div_le_one (by linarith)]
    linarith

/-- A defined availability score is a plain unit-interval value, provided the
material range is well-ordered and neither the two `from` bounds nor the two
`to` bounds are simultaneously missing (the configurations that push an
infinity into both the overlap and the span, producing NaN). -/
lemma availabilityScore_mem (e m : AvailableTime) (j : JNum)
    (hsane : ∀ c d, m.tfrom = some c → m.tto = some d → c ≤ d)
    (hf : e.tfrom.isSome = true ∨ m.tfrom.isSome = true)
    (ht : e.tto.isSome = true ∨ m.tto.isSome = true)
    (h : availabilityScore (some e) (some m) = some j) :
    ∃ q, j = finJ q ∧ 0 ≤ q ∧ q ≤ 1 := by
  obtain ⟨ef, et⟩ := e
  obtain ⟨mf, mt⟩ := m
  rcases ef with _ | a <;> rcases et with _ | b <;> rcases mf with _ | c <;> rcases mt with _ | d
  · simp [availabilityScore] at h
  · simp [availabilityScore] at h
  · simp [availabilityScore] at h
  · simp [availabilityScore] at h
  · simp [availabilityScore] at h
  · simp at hf
  · -- query (-inf, b], material [c, +inf): the span falls back to the overlap
    simp only [availabilityScore, startOf, endOf, Option.isNone_none, Option.isNone_some,
      and_self, and_false, false_and, and_true, true_and, if_true, if_false,
      JTime.maxJ_fin_fin, JTime.minJ_fin_fin, maxJ_ninf_left, maxJ_fin_ninf, minJ_pinf_left,
      minJ_fin_pinf, JTime.subJ, jleB, JTime.leB, JTime.ltB, reduceCtorEq, or_false,
      false_or, Bool.false_eq_true, decide_eq_true_eq, eq_self_iff_true, or_true, true_or,
      finJ] at h
    split_ifs at h with g1 g2
    · cases h
      exact ⟨0, rfl, by norm_num⟩
    · cases h
      exact ⟨1, rfl, by norm_num⟩
    · cases h
      exact minDiv_mem _ _ (by linarith) (by linarith)
  · -- query (-inf, b], material [c, d]
    simp only [availabilityScore, startOf, endOf, Option.isNone_none, Option.isNone_some,
      and_self, and_false, false_and, and_true, true_and, if_true, if_false,
      JTime.maxJ_fin_fin, JTime.minJ_fin_fin, maxJ_ninf_left, maxJ_fin_ninf, minJ_pinf_left,
      minJ_fin_pinf, JTime.subJ, jleB, JTime.leB, JTime.ltB, reduceCtorEq, or_false,
      false_or, Bool.false_eq_true, decide_eq_true_eq, eq_self_iff_true, or_true, true_or,
      finJ] at h
    split_ifs at h with g1 g2
    · cases h
      exact ⟨0, rfl, by norm_num⟩
    · cases h
      exact ⟨1, rfl, by norm_num⟩
    · cases h
      exact minDiv_mem _ _ (by linarith) (by linarith)
  · simp [availabilityScore] at h
  · -- query [a, +inf), material (-inf, d]
    simp only [availabilityScore, startOf, endOf, Option.isNone_none, Option.isNone_some,
      and_self, and_false, false_and, and_true, true_and, if_true, if_false,
      JTime.maxJ_fin_fin, JTime.minJ_fin_fin, maxJ_ninf_left, maxJ_fin_ninf, minJ_pinf_left,
      minJ_fin_pinf, JTime.subJ, jleB, JTime.leB, JTime.ltB, reduceCtorEq, or_false,
      false_or, Bool.false_eq_true, decide_eq_true_eq, eq_self_iff_true, or_true, true_or,
      finJ] at h
    split_ifs at h with g1 g2
    · cases h
      exact ⟨0, rfl, by norm_num⟩
    · cases h
      exact ⟨1, rfl, by norm_num⟩
    · cases h
      exact minDiv_mem _ _ (by linarith) (by linarith)
  · simp at ht
  · -- query [a, +inf), material [c, d]: the span falls back to the overlap
    simp only [availabilityScore, startOf, endOf, Option.isNone_none, Option.isNone_some,
      and_self, and_false, false_and, and_true, true_and, if_true, if_false,
      JTime.maxJ_fin_fin, JTime.minJ_fin_fin, maxJ_ninf_left, maxJ_fin_ninf, minJ_pinf_left,
      minJ_fin_pinf, JTime.subJ, jleB, JTime.leB, JTime.ltB, reduceCtorEq, or_false,
      false_or, Bool.false_eq_true, decide_eq_true_eq, eq_self_iff_true, or_true, true_or,
      finJ] at h
    split_ifs at h with g1 g2
    · cases h
      exact ⟨0, rfl, by norm_num⟩
    · cases h
      exact ⟨1, rfl, by norm_num⟩
    · cases h
      exact minDiv_mem _ _ (by linarith) (by linarith)
  · simp [availabilityScore] at h
  · -- query [a, b], material (-inf, d]
    simp only [availabilityScore, startOf, endOf, Option.isNone_none, Option.isNone_some,
      and_self, and_false, false_and, and_true, true_and, if_true, if_false,
      JTime.maxJ_fin_fin, JTime.minJ_fin_fin, maxJ_ninf_left, maxJ_fin_ninf, minJ_pinf_left,
      minJ_fin_pinf, JTime.subJ, jleB, JTime.leB, JTime.ltB, reduceCtorEq, or_false,
      false_or, Bool.false_eq_true, decide_eq_true_eq, eq_self_iff_true, or_true, true_or,
      finJ] at h
    split_ifs at h with g1 g2
    · cases h
      exact ⟨0, rfl, by norm_num⟩
    · cases h
      exact ⟨1, rfl, by norm_num⟩
    · cases h
      refine minDiv_mem _ _ ?_ (by linarith)
      have hmin : a ≤ min b d := le_min (by linarith) (by linarith)
      linarith
  · -- query [a, b], material [c, +inf)
    simp only [availabilityScore, startOf, endOf, Option.isNone_none, Option.isNone_some,
      and_self, and_false, false_and, and_true, true_and, if_true, if_false,
      JTime.maxJ_fin_fin, JTime.minJ_fin_fin, maxJ_ninf_left, maxJ_fin_ninf, minJ_pinf_left,
      minJ_fin_pinf, JTime.subJ, jleB, JTime.leB, JTime.ltB, reduceCtorEq, or_false,
      false_or, Bool.false_eq_true, decide_eq_true_eq, eq_self_iff_true, or_true, true_or,
      finJ] at h
    split_ifs at h with g1 g2
    · cases h
      exact ⟨0, rfl, by norm_num⟩
    · cases h
      exact ⟨1, rfl, by norm_num⟩
    · cases h
      refine minDiv_mem _ _ ?_ (by linarith)
      have hmax : max a c ≤ b := max_le (by linarith) (by linarith)
      linarith
  · -- query [a, b], material [c, d]
    simp only [availabilityScore, startOf, endOf, Option.isNone_none, Option.isNone_some,
      and_self, and_false, false_and, and_true, true_and, if_true, if_false,
      JTime.maxJ_fin_fin, JTime.minJ_fin_fin, maxJ_ninf_left, maxJ_fin_ninf, minJ_pinf_left,
      minJ_fin_pinf, JTime.subJ, jleB, JTime.leB, JTime.ltB, reduceCtorEq, or_false,
      false_or, Bool.false_eq_true, decide_eq_true_eq, eq_self_iff_true, or_true, true_or,
      finJ] at h
    split_ifs at h with g1 g2
    · cases h
      exact ⟨0, rfl, by norm_num⟩
    · cases h
      exact ⟨1, rfl, by norm_num⟩
    · cases h
      push_neg at g1
      obtain ⟨g1a, g1b⟩ := g1
      have hcd : c ≤ d := hsane c d rfl rfl
      refine minDiv_mem _ _ ?_ (by linarith)
      have hmm : max a c ≤ min b d :=
        max_le (le_min (by linarith) (by linarith)) (le_min (by linarith) (by linarith))
      linarith

/-! ### Invariants of the aggregation maps (claim C8) -/

/-- A successful association-list lookup returns a member entry. -/
lemma lookup_mem {α : Type} (k : String) (l : List (String × α)) (v : α)
    (h : List.lookup k l = some v) : (k, v) ∈ l := by
  induction l with
  | nil => exact Option.noConfusion h
  | cons hd tl ih =>
      rcases hd with ⟨k₂, v₂⟩
      simp only [List.lookup] at h
      by_cases hk : k = k₂
      · subst hk
        simp only [beq_self_eq_true] at h
        cases h
        exact List.mem_cons_self _ _
      · have hne : (k == k₂) = false := beq_eq_false_iff_ne.mpr hk
        rw [hne] at h
        exact List.mem_cons_of_mem _ (ih h)

/-- Every entry of `setEntry m k v` is the new binding or an old entry. -/
lemma mem_setEntry {α : Type} (x : String × α) (l : List (String × α)) (k : String) (v : α)
    (h : x ∈ setEntry l k v) : x = (k, v) ∨ x ∈ l := by
  induction l with
  | nil =>
      simp only [setEntry, List.mem_cons, List.not_mem_nil, or_false] at h
      exact Or.inl h
  | cons hd tl ih =>
      rcases hd with ⟨k₂, v₂⟩
      simp only [setEntry] at h
      split_ifs at h with hk
      · rcases List.mem_cons.mp h with h₁ | h₂
        · exact Or.inl h₁
        · exact Or.inr (List.mem_cons_of_mem _ h₂)
      · rcases List.mem_cons.mp h with h₁ | h₂
        · exact Or.inr (by rw [h₁]; exact List.mem_cons_self _ _)
        · rcases ih h₂ with h₃ | h₃
          · exact Or.inl h₃
          · exact Or.inr (List.mem_cons_of_mem _ h₃)

/-- Invariant preservation along a fold that builds an aggregation map. -/
lemma foldl_inv {α β : Type} (P : β → Prop) (Q : α → Prop) (f : List β → α → List β)
    (hf : ∀ acc x, Q x → (∀ e ∈ acc, P e) → ∀ e ∈ f acc x, P e) :
    ∀ (l : List α), (∀ x ∈ l, Q x) → ∀ acc, (∀ e ∈ acc, P e) →
      ∀ e ∈ l.foldl f acc, P e := by
  intro l
  induction l with
  | nil =>
      intro _ acc hacc e he
      exact hacc e he
  | cons hd tl ih =>
      intro hQ acc hacc e he
      exact ih (fun x hx => hQ x (List.mem_cons_of_mem _ hx)) (f acc hd)
        (hf acc hd (hQ hd (List.mem_cons_self _ _)) hacc) e he

/-- When both index responses carry similarity scores inside the unit
interval, every aggregated `scoreMap` entry does too. -/
lemma buildScoreMap_bounds (nameMatches descMatches : List VecMatch)
    (hn : ∀ v ∈ nameMatches, 0 ≤ v.score ∧ v.score ≤ 1)
    (hd : ∀ v ∈ descMatches, 0 ≤ v.score ∧ v.score ≤ 1) :
    ∀ e ∈ buildScoreMap nameMatches descMatches,
      (0 ≤ e.2.nameScore ∧ e.2.nameScore ≤ 1) ∧
      (0 ≤ e.2.descScore ∧ e.2.descScore ≤ 1) := by
  have h₁ : ∀ e ∈ nameMatches.foldl
      (fun m v => setEntry m v.id ({ nameScore := v.score, descScore := 0 } : NScore))
      ([] : List (String × NScore)),
      (0 ≤ e.2.nameScore ∧ e.2.nameScore ≤ 1) ∧
      (0 ≤ e.2.descScore ∧ e.2.descScore ≤ 1) := by
    refine foldl_inv _ (fun v => 0 ≤ v.score ∧ v.score ≤ 1) _ ?_ nameMatches hn []
      (by intro e he; simp at he)
    intro acc x hQ hacc e he
    rcases mem_setEntry e acc x.id _ he with h₂ | h₂
    · rw [h₂]
      exact ⟨hQ, by norm_num⟩
    · exact hacc e h₂
  intro e he
  simp only [buildScoreMap] at he
  refine foldl_inv _ (fun v => 0 ≤ v.score ∧ v.score ≤ 1) _ ?_ descMatches hd _ h₁ e he
  intro acc x hQ hacc e₂ he₂
  rcases hl : List.lookup x.id acc with _ | prev <;> rw [hl] at he₂
  · rcases mem_setEntry e₂ acc x.id { nameScore := 0, descScore := x.score } he₂ with h₃ | h₃
    · rw [h₃]
      exact ⟨⟨le_refl 0, by norm_num⟩, hQ⟩
    · exact hacc e₂ h₃
  · have hprev := hacc (x.id, prev) (lookup_mem x.id acc prev hl)
    rcases mem_setEntry e₂ acc x.id
        { nameScore := prev.nameScore, descScore := x.score } he₂ with h₃ | h₃
    · rw [h₃]
      exact ⟨hprev.1, hQ⟩
    · exact hacc e₂ h₃

/-- Every metadata-map value is the metadata of some name-index hit. -/
lemma mem_buildMetadataMap (nameMatches : List VecMatch) :
    ∀ e ∈ buildMetadataMap nameMatches, ∃ w ∈ nameMatches, e.2 = w.metadata := by
  intro e he
  simp only [buildMetadataMap] at he
  refine foldl_inv (fun e => ∃ w ∈ nameMatches, e.2 = w.metadata)
    (fun v => v ∈ nameMatches) _ ?_ nameMatches (fun x hx => hx) []
    (by intro x hx; simp at hx) e he
  intro acc x hQ hacc e₂ he₂
  rcases mem_setEntry e₂ acc x.id x.metadata he₂ with h₁ | h₁
  · exact ⟨x, hQ, by rw [h₁]⟩
  · exact hacc e₂ h₁

/-! ### Resolved-weight bounds (claim C8) -/

/-- Every adaptively resolved weight is nonnegative. -/
lemma calculateActiveWeights_nonneg (material : MaterialWithoutId) :
    0 ≤ (calculateActiveWeights material).w_name ∧
    0 ≤ (calculateActiveWeights material).w_desc ∧
    0 ≤ (calculateActiveWeights material).w_price ∧
    0 ≤ (calculateActiveWeights material).w_quality ∧
    0 ≤ (calculateActiveWeights material).w_location ∧
    0 ≤ (calculateActiveWeights material).w_availability ∧
    0 ≤ (calculateActiveWeights material).w_size := by
  by_cases h : 0 < activeWeightTotal material
  · rw [calculateActiveWeights_pos material h]
    refine ⟨?_, ?_, ?_, ?_, ?_, ?_, ?_⟩ <;> dsimp only <;>
      exact div_nonneg (by split_ifs <;> norm_num [DEFAULT_WEIGHTS]) h.le
  · rw [calculateActiveWeights_nonpos material h]
    refine ⟨?_, ?_, ?_, ?_, ?_, ?_, ?_⟩ <;> dsimp only <;>
      (split_ifs <;> norm_num [DEFAULT_WEIGHTS])

/-- The adaptively resolved weights sum to at most 1 (exactly 1 when a field
is provided, 0 otherwise). -/
lemma calculateActiveWeights_sum_le_one (material : MaterialWithoutId) :
    (calculateActiveWeights material).w_name + (calculateActiveWeights material).w_desc +
    (calculateActiveWeights material).w_price + (calculateActiveWeights material).w_quality +
    (calculateActiveWeights material).w_location +
    (calculateActiveWeights material).w_availability +
    (calculateActiveWeights material).w_size ≤ 1 := by
  by_cases h : 0 < activeWeightTotal material
  · rw [calculateActiveWeights_pos material h]
    dsimp only
    rw [div_add_div_same, div_add_div_same, div_add_div_same, div_add_div_same,
      div_add_div_same, div_add_div_same, div_le_one h]
    exact le_of_eq rfl
  · rw [calculateActiveWeights_nonpos material h]
    obtain ⟨f₁, f₂, f₃, f₄, f₅, f₆, f₇⟩ := flags_false_of_total_nonpos material h
    dsimp only
    simp only [f₁, f₂, f₃, f₄, f₅, f₆, f₇, Bool.false_eq_true, if_false]
    norm_num

/-! ### Structure of the combined-score component list (claim C8) -/

/-- Membership in one conditionally pushed component block. -/
lemma mem_option_block {γ : Type} (b : Bool) (o : Option γ) (f : γ → Option JNum × ℚ)
    (p : Option JNum × ℚ) (h : p ∈ (if b then (o.map f).toList else [])) :
    ∃ v, o = some v ∧ p = f v := by
  cases b
  · simp at h
  · cases o with
    | none => simp at h
    | some v =>
        simp only [Option.map_some', Option.toList_some, List.mem_cons, List.not_mem_nil,
          or_false, if_true] at h
        exact ⟨v, rfl, h⟩

/-- Every combined-score component is the name score, the description score,
or a defined structured-field score carrying its resolved weight. -/
lemma mem_scoreComponents (dist : Location → Location → ℚ) (material : MaterialWithoutId)
    (provided : ProvidedFields) (weights : Weights) (scores : NScore)
    (metadata : Option MetaData) (p : Option JNum × ℚ)
    (hp : p ∈ scoreComponentsOf dist material provided weights scores metadata) :
    p = (some (finJ scores.nameScore), weights.w_name) ∨
    p = (some (finJ scores.descScore), weights.w_desc) ∨
    (∃ v, s_priceOf material provided metadata = some v ∧
      p = (some (finJ v), weights.w_price)) ∨
    (∃ v, s_qualityOf material provided metadata = some v ∧
      p = (some (finJ v), weights.w_quality)) ∨
    (∃ v, s_locationOf dist material provided metadata = some v ∧
      p = (some (finJ v), weights.w_location)) ∨
    (∃ v, s_availabilityOf material provided metadata = some v ∧
      p = (some v, weights.w_availability)) ∨
    (∃ v, s_sizeOf material provided metadata = some v ∧
      p = (some v, weights.w_size)) := by
  simp only [scoreComponentsOf, List.append_assoc, List.mem_append, List.mem_cons,
    List.not_mem_nil, or_false] at hp
  rcases hp with (h | h) | h | h | h | h | h
  · exact Or.inl h
  · exact Or.inr (Or.inl h)
  · obtain ⟨v, hv, rfl⟩ := mem_option_block _ _ _ _ h
    exact Or.inr (Or.inr (Or.inl ⟨v, hv, rfl⟩))
  · obtain ⟨v, hv, rfl⟩ := mem_option_block _ _ _ _ h
    exact Or.inr (Or.inr (Or.inr (Or.inl ⟨v, hv, rfl⟩)))
  · obtain ⟨v, hv, rfl⟩ := mem_option_block _ _ _ _ h
    exact Or.inr (Or.inr (Or.inr (Or.inr (Or.inl ⟨v, hv, rfl⟩))))
  · obtain ⟨v, hv, rfl⟩ := mem_option_block _ _ _ _ h
    exact Or.inr (Or.inr (Or.inr (Or.inr (Or.inr (Or.inl ⟨v, hv, rfl⟩)))))
  · obtain ⟨v, hv, rfl⟩ := mem_option_block _ _ _ _ h
    exact Or.inr (Or.inr (Or.inr (Or.inr (Or.inr (Or.inr ⟨v, hv, rfl⟩)))))

/-- Every combined-score component has a defined score slot. -/
lemma scoreComponents_isSome (dist : Location → Location → ℚ) (material : MaterialWithoutId)
    (provided : ProvidedFields) (weights : Weights) (scores : NScore)
    (metadata : Option MetaData) :
    ∀ p ∈ scoreComponentsOf dist material provided weights scores metadata,
      p.1.isSome = true := by
  intro p hp
  rcases mem_scoreComponents dist material provided weights scores metadata p hp with
    h | h | ⟨v, _, h⟩ | ⟨v, _, h⟩ | ⟨v, _, h⟩ | ⟨v, _, h⟩ | ⟨v, _, h⟩ <;> rw [h] <;> rfl

/-- The weight of one conditionally pushed component block sums to at most
the weight of its field. -/
lemma option_block_sum_le {γ : Type} (b : Bool) (o : Option γ) (f : γ → Option JNum × ℚ)
    (w : ℚ) (hw : 0 ≤ w) (hf : ∀ v, (f v).2 = w) :
    ((if b then (o.map f).toList else []).map (fun p => p.2)).sum ≤ w := by
  cases b
  · simpa using hw
  · cases o with
    | none => simpa using hw
    | some v => simp [hf]

/-- The combined-score component weights sum to at most the total of the
seven resolved weights. -/
lemma scoreComponents_weight_sum_le (dist : Location → Location → ℚ)
    (material : MaterialWithoutId) (provided : ProvidedFields) (weights : Weights)
    (scores : NScore) (metadata : Option MetaData)
    (hw : 0 ≤ weights.w_price ∧ 0 ≤ weights.w_quality ∧ 0 ≤ weights.w_location ∧
      0 ≤ weights.w_availability ∧ 0 ≤ weights.w_size) :
    (((scoreComponentsOf dist material provided weights scores metadata)).map
      (fun p => p.2)).sum ≤
    weights.w_name + weights.w_desc + weights.w_price + weights.w_quality +
      weights.w_location + weights.w_availability + weights.w_size := by
  obtain ⟨hw₁, hw₂, hw₃, hw₄, hw₅⟩ := hw
  simp only [scoreComponentsOf, List.map_append, List.sum_append, List.map_cons,
    List.map_nil, List.sum_cons, List.sum_nil]
  have h₁ := option_block_sum_le provided.hasPrice (s_priceOf material provided metadata)
    (fun v => ((some (finJ v) : Option JNum), weights.w_price)) weights.w_price hw₁
    (fun v => rfl)
  have h₂ := option_block_sum_le provided.hasQuality (s_qualityOf material provided metadata)
    (fun v => ((some (finJ v) : Option JNum), weights.w_quality)) weights.w_quality hw₂
    (fun v => rfl)
  have h₃ := option_block_sum_le provided.hasLocation
    (s_locationOf dist material provided metadata)
    (fun v => ((some (finJ v) : Option JNum), weights.w_location)) weights.w_location hw₃
    (fun v => rfl)
  have h₄ := option_block_sum_le provided.hasAvailability
    (s_availabilityOf material provided metadata)
    (fun v => ((some v : Option JNum), weights.w_availability)) weights.w_availability hw₄
    (fun v => rfl)
  have h₅ := option_block_sum_le provided.hasSize (s_sizeOf material provided metadata)
    (fun v => ((some v : Option JNum), weights.w_size)) weights.w_size hw₅
    (fun v => rfl)
  linarith [h₁, h₂, h₃, h₄, h₅]

/-- When every weight of a component list is 1, the weight sum is the
length. -/
lemma weight_sum_eq_length (l : List (Option JNum × ℚ)) (h : ∀ p ∈ l, p.2 = 1) :
    (l.map (fun p => p.2)).sum = (l.length : ℚ) := by
  induction l with
  | nil => simp
  | cons hd tl ih =>
      simp only [List.map_cons, List.sum_cons, List.length_cons]
      rw [h hd (List.mem_cons_self _ _), ih (fun p hp => h p (List.mem_cons_of_mem _ hp))]
      push_cast
      ring

/-- A defined size score against nonnegative expected dimensions is a plain
unit-interval value. -/
lemma sizeScore_mem (e m : Size) (j : JNum)
    (hw : ∀ q, e.width = some q → 0 ≤ q)
    (hh : ∀ q, e.height = some q → 0 ≤ q)
    (hd : ∀ q, e.depth = some q → 0 ≤ q)
    (h : sizeScore (some e) (some m) = some j) :
    ∃ q, j = finJ q ∧ 0 ≤ q ∧ q ≤ 1 := by
  simp only [sizeScore] at h
  split_ifs at h with hlen
  cases h
  set LL := [(closerIsBetterScore e.width m.width, (1 : ℚ)),
    (closerIsBetterScore e.height m.height, 1),
    (closerIsBetterScore e.depth m.depth, 1)].filter (fun s => s.1.isSome) with hLL
  have hmem : ∀ p ∈ LL, (∀ jj, p.1 = some jj → ∃ q, jj = finJ q ∧ 0 ≤ q ∧ q ≤ 1) ∧
      0 ≤ p.2 := by
    intro p hp
    have hp₂ := List.mem_of_mem_filter hp
    simp only [List.mem_cons, List.not_mem_nil, or_false] at hp₂
    rcases hp₂ with rfl | rfl | rfl
    · exact ⟨fun jj hjj => closerIsBetterScore_some_mem _ _ jj hw hjj, by norm_num⟩
    · exact ⟨fun jj hjj => closerIsBetterScore_some_mem _ _ jj hh hjj, by norm_num⟩
    · exact ⟨fun jj hjj => closerIsBetterScore_some_mem _ _ jj hd hjj, by norm_num⟩
  have hall : ∀ p ∈ LL, p.1.isSome = true := by
    intro p hp
    simpa using List.of_mem_filter hp
  have hone : ∀ p ∈ LL, p.2 = 1 := by
    intro p hp
    have hp₂ := List.mem_of_mem_filter hp
    simp only [List.mem_cons, List.not_mem_nil, or_false] at hp₂
    rcases hp₂ with rfl | rfl | rfl <;> rfl
  refine combinedScore_mem LL hmem ?_
  rw [List.filter_eq_self.mpr hall, weight_sum_eq_length LL hone]
  intro habs
  rcases Nat.lt_or_ge LL.length 2 with h₂ | h₂
  · exact_mod_cast Nat.lt_succ_iff.mp h₂
  · exfalso
    have hc : (2 : ℚ) ≤ (LL.length : ℚ) := by exact_mod_cast h₂
    rw [abs_sub_lt_iff] at habs
    linarith [habs.1]

/-- A match emitted by `scoreEntry` carries the combined score and breakdown
of its source components. -/
lemma scoreEntry_some (dist : Location → Location → ℚ) (material : MaterialWithoutId)
    (provided : ProvidedFields) (weights : Weights) (options : Option RetrievalOptions)
    (materialId : String) (sc : NScore) (metadata : Option MetaData) (m : RetrievalMatch)
    (h : scoreEntry dist material provided weights options materialId sc metadata = some m) :
    m.score = combinedScore (scoreComponentsOf dist material provided weights sc metadata) ∧
    m.scoreBreakdown = breakdownOf dist material provided sc metadata := by
  unfold scoreEntry at h
  split_ifs at h
  cases h
  exact ⟨rfl, rfl⟩

/-- Claim C8 (amended): for every retrieval response, each returned match's
combined score and every entry of its score breakdown lie in the unit
interval, assuming the vector indices return similarity scores in `[0, 1]`,
the distance kernel is nonnegative, the query's provided size dimensions are
nonnegative, and every stored availability range is well-ordered and shares
a bounded side (`from` and `to`) with the query range — without the last
assumption the availability entry and the combined score can be NaN. -/
theorem scores_in_unit_interval
    (dist : Location → Location → ℚ) (topK : ℕ) (material : MaterialWithoutId)
    (options : Option RetrievalOptions) (nameMatches descMatches : List VecMatch)
    (hdist : ∀ a b, 0 ≤ dist a b)
    (hname : ∀ v ∈ nameMatches, 0 ≤ v.score ∧ v.score ≤ 1)
    (hdesc : ∀ v ∈ descMatches, 0 ≤ v.score ∧ v.score ≤ 1)
    (hsize : ∀ sz, material.size = some sz →
      (∀ q, sz.width = some q → 0 ≤ q) ∧ (∀ q, sz.height = some q → 0 ≤ q) ∧
      (∀ q, sz.depth = some q → 0 ≤ q))
    (havail : ∀ w ∈ nameMatches, ∀ md, w.metadata = some md →
      ∀ t, md.availableTime = some t →
      (∀ c d, t.tfrom = some c → t.tto = some d → c ≤ d) ∧
      (∀ qa, material.availableTime = some qa →
        (qa.tfrom.isSome = true ∨ t.tfrom.isSome = true) ∧
        (qa.tto.isSome = true ∨ t.tto.isSome = true)))
    (mt : RetrievalMatch)
    (hm : mt ∈ (retrieveSimilarMaterials dist topK material options
        nameMatches descMatches).«matches») :
    jInUnitB mt.score = true ∧
    jInUnitB mt.scoreBreakdown.name = true ∧
    jInUnitB mt.scoreBreakdown.description = true ∧
    jInUnitB mt.scoreBreakdown.price = true ∧
    jInUnitB mt.scoreBreakdown.quality = true ∧
    jInUnitB mt.scoreBreakdown.location = true ∧
    jInUnitB mt.scoreBreakdown.availability = true ∧
    jInUnitB mt.scoreBreakdown.size = true := by
  obtain ⟨e, he, hs⟩ := mem_matches_exists_entry dist topK material options
    nameMatches descMatches mt hm
  obtain ⟨hscore, hbd⟩ := scoreEntry_some dist material (isFieldProvided material)
    (calculateActiveWeights material) options e.1 e.2
    ((List.lookup e.1 (buildMetadataMap nameMatches)).join) mt hs
  have hns := buildScoreMap_bounds nameMatches descMatches hname hdesc e he
  have hmdprov : ∀ mdv, (List.lookup e.1 (buildMetadataMap nameMatches)).join = some mdv →
      ∃ w ∈ nameMatches, w.metadata = some mdv := by
    intro mdv hmdv
    rcases hlk : List.lookup e.1 (buildMetadataMap nameMatches) with _ | o
    · rw [hlk] at hmdv
      exact Option.noConfusion hmdv
    · rw [hlk] at hmdv
      have ho : o = some mdv := by simpa [Option.join] using hmdv
      subst ho
      obtain ⟨w, hwmem, hwe⟩ := mem_buildMetadataMap nameMatches (e.1, some mdv)
        (lookup_mem e.1 (buildMetadataMap nameMatches) (some mdv) hlk)
      exact ⟨w, hwmem, hwe.symm⟩
  set md := (List.lookup e.1 (buildMetadataMap nameMatches)).join with hmddef
  have hpq : ∀ v, s_priceOf material (isFieldProvided material) md = some v →
      0 ≤ v ∧ v ≤ 1 := by
    intro v hv
    unfold s_priceOf at hv
    split_ifs at hv
    exact lowerIsBetterScore_some_mem _ _ v hv
  have hqq : ∀ v, s_qualityOf material (isFieldProvided material) md = some v →
      0 ≤ v ∧ v ≤ 1 := by
    intro v hv
    unfold s_qualityOf at hv
    split_ifs at hv
    exact lowerIsBetterScore_some_mem _ _ v hv
  have hlq : ∀ v, s_locationOf dist material (isFieldProvided material) md = some v →
      0 ≤ v ∧ v ≤ 1 := by
    intro v hv
    unfold s_locationOf at hv
    split_ifs at hv
    exact distance_mem dist hdist _ _ v hv
  have havq : ∀ v, s_availabilityOf material (isFieldProvided material) md = some v →
      ∃ q, v = finJ q ∧ 0 ≤ q ∧ q ≤ 1 := by
    intro v hv
    unfold s_availabilityOf at hv
    split_ifs at hv
    rcases hqa : material.availableTime with _ | qa
    · rw [hqa] at hv
      exact Option.noConfusion hv
    rcases hmdv : md with _ | mdv
    · rw [hqa, hmdv] at hv
      exact Option.noConfusion hv
    rcases hta : mdv.availableTime with _ | ta
    · rw [hqa, hmdv] at hv
      rw [show (some mdv).bind (fun x => x.availableTime) = mdv.availableTime from rfl,
        hta] at hv
      exact Option.noConfusion hv
    rw [hqa, hmdv] at hv
    rw [show (some mdv).bind (fun x => x.availableTime) = mdv.availableTime from rfl,
      hta] at hv
    obtain ⟨w, hwmem, hwmeta⟩ := hmdprov mdv (by rw [← hmdv])
    obtain ⟨hsane, hshare⟩ := havail w hwmem mdv hwmeta ta hta
    obtain ⟨hfs, hts⟩ := hshare qa hqa
    exact availabilityScore_mem qa ta v hsane hfs hts hv
  have hsq : ∀ v, s_sizeOf material (isFieldProvided material) md = some v →
      ∃ q, v = finJ q ∧ 0 ≤ q ∧ q ≤ 1 := by
    intro v hv
    unfold s_sizeOf at hv
    split_ifs at hv
    rcases hes : material.size with _ | es
    · rw [hes] at hv
      exact Option.noConfusion hv
    rcases hms : md.bind (fun x => x.size) with _ | ms
    · rw [hes, hms] at hv
      exact Option.noConfusion hv
    rw [hes, hms] at hv
    obtain ⟨hw₁, hh₁, hd₁⟩ := hsize es hes
    exact sizeScore_mem es ms v hw₁ hh₁ hd₁ hv
  have hw7 := calculateActiveWeights_nonneg material
  have hcs : ∃ c, combinedScore (scoreComponentsOf dist material (isFieldProvided material)
      (calculateActiveWeights material) e.2 md) = finJ c ∧ 0 ≤ c ∧ c ≤ 1 := by
    refine combinedScore_mem _ ?_ ?_
    · intro p hp
      rcases mem_scoreComponents dist material (isFieldProvided material)
        (calculateActiveWeights material) e.2 md p hp with
        hx | hx | ⟨v, hv, hx⟩ | ⟨v, hv, hx⟩ | ⟨v, hv, hx⟩ | ⟨v, hv, hx⟩ | ⟨v, hv, hx⟩
      · subst hx
        refine ⟨?_, hw7.1⟩
        intro jj hjj
        cases hjj
        exact ⟨e.2.nameScore, rfl, hns.1.1, hns.1.2⟩
      · subst hx
        refine ⟨?_, hw7.2.1⟩
        intro jj hjj
        cases hjj
        exact ⟨e.2.descScore, rfl, hns.2.1, hns.2.2⟩
      · subst hx
        refine ⟨?_, hw7.2.2.1⟩
        intro jj hjj
        cases hjj
        exact ⟨v, rfl, hpq v hv⟩
      · subst hx
        refine ⟨?_, hw7.2.2.2.1⟩
        intro jj hjj
        cases hjj
        exact ⟨v, rfl, hqq v hv⟩
      · subst hx
        refine ⟨?_, hw7.2.2.2.2.1⟩
        intro jj hjj
        cases hjj
        exact ⟨v, rfl, hlq v hv⟩
      · subst hx
        refine ⟨?_, hw7.2.2.2.2.2.1⟩
        intro jj hjj
        cases hjj
        exact havq v hv
      · subst hx
        refine ⟨?_, hw7.2.2.2.2.2.2⟩
        intro jj hjj
        cases hjj
        exact hsq v hv
    · intro _
      rw [List.filter_eq_self.mpr (scoreComponents_isSome dist material
        (isFieldProvided material) (calculateActiveWeights material) e.2 md)]
      exact le_trans
        (scoreComponents_weight_sum_le dist material (isFieldProvided material)
          (calculateActiveWeights material) e.2 md
          ⟨hw7.2.2.1, hw7.2.2.2.1, hw7.2.2.2.2.1, hw7.2.2.2.2.2.1, hw7.2.2.2.2.2.2⟩)
        (calculateActiveWeights_sum_le_one material)
  refine ⟨?_, ?_, ?_, ?_, ?_, ?_, ?_, ?_⟩
  · rw [hscore]
    obtain ⟨c, hc, h0, h1⟩ := hcs
    rw [hc, jInUnitB_finJ]
    exact decide_eq_true ⟨h0, h1⟩
  · rw [hbd]
    show jInUnitB (finJ e.2.nameScore) = true
    rw [jInUnitB_finJ]
    exact decide_eq_true ⟨hns.1.1, hns.1.2⟩
  · rw [hbd]
    show jInUnitB (finJ e.2.descScore) = true
    rw [jInUnitB_finJ]
    exact decide_eq_true ⟨hns.2.1, hns.2.2⟩
  · rw [hbd]
    show jInUnitB (finJ ((s_priceOf material (isFieldProvided material) md).getD 0)) = true
    rcases hp : s_priceOf material (isFieldProvided material) md with _ | v
    · rw [jInUnitB_finJ]
      norm_num
    · rw [jInUnitB_finJ]
      exact decide_eq_true ⟨(hpq v hp).1, (hpq v hp).2⟩
  · rw [hbd]
    show jInUnitB (finJ ((s_qualityOf material (isFieldProvided material) md).getD 0)) = true
    rcases hp : s_qualityOf material (isFieldProvided material) md with _ | v
    · rw [jInUnitB_finJ]
      norm_num
    · rw [jInUnitB_finJ]
      exact decide_eq_true ⟨(hqq v hp).1, (hqq v hp).2⟩
  · rw [hbd]
    show jInUnitB (finJ ((s_locationOf dist material (isFieldProvided material) md).getD 0)) =
      true
    rcases hp : s_locationOf dist material (isFieldProvided material) md with _ | v
    · rw [jInUnitB_finJ]
      norm_num
    · rw [jInUnitB_finJ]
      exact decide_eq_true ⟨(hlq v hp).1, (hlq v hp).2⟩
  · rw [hbd]
    show jInUnitB ((s_availabilityOf material (isFieldProvided material) md).getD (finJ 0)) =
      true
    rcases hp : s_availabilityOf material (isFieldProvided material) md with _ | v
    · rw [show ((none : Option JNum).getD (finJ 0)) = finJ 0 from rfl, jInUnitB_finJ]
      norm_num
    · obtain ⟨q, hq, h0, h1⟩ := havq v hp
      rw [show ((some v).getD (finJ 0)) = v from rfl, hq, jInUnitB_finJ]
      exact decide_eq_true ⟨h0, h1⟩
  · rw [hbd]
    show jInUnitB ((s_sizeOf material (isFieldProvided material) md).getD (finJ 0)) = true
    rcases hp : s_sizeOf material (isFieldProvided material) md with _ | v
    · rw [show ((none : Option JNum).getD (finJ 0)) = finJ 0 from rfl, jInUnitB_finJ]
      norm_num
    · obtain ⟨q, hq, h0, h1⟩ := hsq v hp
      rw [show ((some v).getD (finJ 0)) = v from rfl, hq, jInUnitB_finJ]
      exact decide_eq_true ⟨h0, h1⟩

/-! ### Concrete NaN-producing retrieval (claim C8) -/

/-- Query providing only a name and an availability range with no end. -/
def avmat : MaterialWithoutId :=
  { name := some ("q")
    description := none
    price := none
    quality := none
    size := none
    location := none
    availableTime := some { tfrom := some 0, tto := none } }

/-- Stored metadata whose availability range also has no end. -/
def avmd : MetaData :=
  { quality := 1
    price := 1
    location := none
    size := none
    availableTime := some { tfrom := some 0, tto := none } }

/-- Name-index hit for the candidate carrying that metadata. -/
def avcand : VecMatch :=
  { id := "a", score := 9/10, metadata := some avmd }

/-- The match the NaN-producing retrieval returns: the availability overlap
and the span are both `Infinity`, and `Infinity / Infinity` is NaN, which
the weighted sum absorbs. -/
def avNaNMatch : RetrievalMatch :=
  { materialId := "a"
    score := none
    scoreBreakdown :=
      { name := finJ (9/10)
        description := finJ 0
        price := finJ 0
        quality := finJ 0
        location := finJ 0
        availability := none
        size := finJ 0 } }

/-- The retrieval of `avmat` against the single candidate `avcand` returns
exactly the NaN match. -/
lemma retrieve_avmat :
    (retrieveSimilarMaterials dist0 1 avmat none [avcand] []).«matches» = [avNaNMatch] := by
  norm_num [retrieveSimilarMaterials, queryMatchesOf, buildScoreMap, buildMetadataMap,
    setEntry, List.lookup, Option.join, scoreEntry, locationFilterPass, timeFilterPass,
    breakdownOf, scoreComponentsOf, s_priceOf, s_qualityOf, s_locationOf, s_availabilityOf,
    s_sizeOf, passesHardConstraints, combinedScore, combineStep,
    sortMatches, insertMatch, HARD_CONSTRAINT_MIN_SCORE, jltB, JTime.ltB,
    finJ, jaddJ, jmulW, jdivW, beq_iff_eq, dist0, avmat, avmd, avcand, avNaNMatch,
    isFieldProvided, calculateActiveWeights, DEFAULT_WEIGHTS, jsTruthyStr, jsTruthyNum,
    (show ("q" : String) ≠ "" by decide), (show trimmedNonempty ("q") = true by decide),
    List.filterMap_cons, List.filterMap_nil, reduceCtorEq,
    availabilityScore, startOf, endOf, JTime.maxJ, JTime.minJ, JTime.subJ, JTime.leB,
    jleB, jminJ, jdivJ]
  simp only [reduceCtorEq, if_false]
  norm_num [combineStep, jaddJ, jmulW, sub_self, abs_zero]

/-- Claim C8 (counterexample): the claim asserts unit-interval scores
assuming only unit-interval index similarities, but with an index score of
`9/10` the returned match of the availability-against-availability query has
a NaN combined score and a NaN availability breakdown entry — neither lies
in `[0, 1]`. -/
theorem scores_in_unit_interval_counterexample :
    (0 ≤ avcand.score ∧ avcand.score ≤ 1) ∧
    (retrieveSimilarMaterials dist0 1 avmat none [avcand] []).«matches» = [avNaNMatch] ∧
    jInUnitB avNaNMatch.score = false ∧
    jInUnitB avNaNMatch.scoreBreakdown.availability = false := by
  refine ⟨⟨by norm_num [avcand], by norm_num [avcand]⟩, retrieve_avmat, rfl, rfl⟩

/-- Witness for claim C8 on the name-only query: the theorem applied to the
concrete retrieval puts the returned combined score and the availability
breakdown entry inside the unit interval. -/
theorem scores_in_unit_interval_witness :
    jInUnitB (qmatMatch ("c") (9/10)).score = true ∧
    jInUnitB (qmatMatch ("c") (9/10)).scoreBreakdown.name = true ∧
    jInUnitB (qmatMatch ("c") (9/10)).scoreBreakdown.availability = true := by
  have h := scores_in_unit_interval dist0 1 qmat (some hardNameOptions)
    [cand ("c") (9/10)] []
    (fun a b => le_refl 0)
    (by
      intro v hv
      rw [List.mem_singleton] at hv
      subst hv
      norm_num [cand])
    (by
      intro v hv
      simp at hv)
    (by
      intro sz hsz
      simp [qmat] at hsz)
    (by
      intro w hw mdv hmd
      rw [List.mem_singleton] at hw
      subst hw
      simp [cand] at hmd)
    (qmatMatch ("c") (9/10))
    (by rw [retrieve_qmat_single]; exact List.mem_singleton.mpr rfl)
  exact ⟨h.1, h.2.1, h.2.2.2.2.2.2.1⟩

end MSM
